import Mathlib

/-!
A verification development for the addon subsystem of `turtlectl`
(internal/addons: store.go, manager.go, git.go, backup.go, toc.go).

The Go code is shallowly embedded: filesystem directories, the JSON metadata
store, git working copies and the backup tree are explicit Lean data, and each
manager operation is a pure function threading that state.  Machine-level
details that no modelled operation observes (file permissions, deep directory
nesting beyond the two levels `FindTOCFile` inspects, byte-level UTF-8) are
elided; everything an operation branches on is modelled from the source.
-/

set_option maxRecDepth 100000

namespace Turtlectl

instance {ε α : Type} [DecidableEq ε] [DecidableEq α] : DecidableEq (Except ε α) :=
  fun a b =>
    match a, b with
    | .ok x, .ok y => if h : x = y then .isTrue (by rw [h]) else .isFalse (by simp [h])
    | .error x, .error y => if h : x = y then .isTrue (by rw [h]) else .isFalse (by simp [h])
    | .ok _, .error _ => .isFalse (by simp)
    | .error _, .ok _ => .isFalse (by simp)

/-! ## Time

`time.Time` values as stored in `addons.json`.  `encoding/json` marshals a
`time.Time` to its RFC3339Nano rendering; the model keeps the broken-down
fields that rendering carries.  Zone offsets are modelled as UTC (`Z`). -/

structure Time where
  year : Nat
  month : Nat
  day : Nat
  hour : Nat
  minute : Nat
  second : Nat
  nsec : Nat
deriving DecidableEq, Repr

/-- The zero `time.Time` (January 1, year 1, 00:00:00 UTC). -/
def timeZero : Time := ⟨1, 1, 1, 0, 0, 0, 0⟩

def isLeapYear (y : Nat) : Bool :=
  y % 4 = 0 && (y % 100 != 0 || y % 400 = 0)

def daysInMonth (y m : Nat) : Nat :=
  if m = 2 then (if isLeapYear y then 29 else 28)
  else if m = 4 || m = 6 || m = 9 || m = 11 then 30
  else 31

/-- Field ranges accepted by Go's RFC3339 formatting and parsing
(`time.Parse` rejects out-of-range components; `Format` needs a
four-digit year). -/
def Time.Valid (t : Time) : Prop :=
  t.year ≤ 9999 ∧ 1 ≤ t.month ∧ t.month ≤ 12 ∧ 1 ≤ t.day ∧
  t.day ≤ daysInMonth t.year t.month ∧ t.hour ≤ 23 ∧ t.minute ≤ 59 ∧
  t.second ≤ 59 ∧ t.nsec < 1000000000

instance (t : Time) : Decidable t.Valid := by
  unfold Time.Valid; infer_instance

/-! ## Decimal digits -/

def digitCh (n : Nat) : Char := Char.ofNat (48 + n)

def isDigitCh (c : Char) : Bool := 48 ≤ c.toNat && c.toNat ≤ 57

def digitVal (c : Char) : Nat := c.toNat - 48

/-- Zero-padded fixed-width decimal rendering (Go's `%0wd`). -/
def padDigits : Nat → Nat → List Char
  | 0, _ => []
  | w+1, n => digitCh (n / 10 ^ w) :: padDigits w (n % 10 ^ w)

def readFixedAux : Nat → Nat → List Char → Option (Nat × List Char)
  | 0, acc, s => some (acc, s)
  | w+1, acc, s =>
    match s with
    | c :: t => if isDigitCh c then readFixedAux w (acc * 10 + digitVal c) t else none
    | [] => none

/-- Read exactly `w` decimal digits. -/
def readFixed (w : Nat) (s : List Char) : Option (Nat × List Char) :=
  readFixedAux w 0 s

/-- Value of a digit string (most significant first). -/
def valDigits (l : List Char) : Nat :=
  l.foldl (fun a c => a * 10 + digitVal c) 0

/-- Drop trailing `'0'` characters. -/
def dropTrailZeros (l : List Char) : List Char :=
  (l.reverse.dropWhile (fun c => c = '0')).reverse

/-- Fractional-second digits of RFC3339Nano: nine digits with the trailing
zeros removed (Go's `.999999999` format fragment). -/
def fracDigits (nsec : Nat) : List Char :=
  dropTrailZeros (padDigits 9 nsec)

/-! ## RFC3339Nano rendering and parsing -/

/-- Go's `time.RFC3339Nano` rendering of a (UTC) time, as characters:
`YYYY-MM-DDTHH:MM:SS[.fff]Z` with trailing zeros trimmed from the fraction
and the fraction omitted when zero. -/
def fmtRFC3339Nano (t : Time) : List Char :=
  padDigits 4 t.year ++ '-' :: padDigits 2 t.month ++ '-' :: padDigits 2 t.day ++
  'T' :: padDigits 2 t.hour ++ ':' :: padDigits 2 t.minute ++ ':' :: padDigits 2 t.second ++
  (if t.nsec = 0 then [] else '.' :: fracDigits t.nsec) ++ ['Z']

def expectCh (c : Char) : List Char → Option (List Char)
  | [] => none
  | x :: t => if x = c then some t else none

/-- Optional `.digits` fraction after the seconds (at most nine digits),
returning nanoseconds. -/
def readFrac : List Char → Option (Nat × List Char)
  | '.' :: t =>
    let ds := t.takeWhile isDigitCh
    if 1 ≤ ds.length && ds.length ≤ 9 then
      some (valDigits ds * 10 ^ (9 - ds.length), t.dropWhile isDigitCh)
    else none
  | s => some (0, s)

/-- Parse an RFC3339(Nano) timestamp with `Z` zone designator, range-checking
the fields as `time.Parse` does. -/
def parseRFC3339 (s : List Char) : Option (Time × List Char) := do
  let (y, s) ← readFixed 4 s
  let s ← expectCh '-' s
  let (mo, s) ← readFixed 2 s
  let s ← expectCh '-' s
  let (d, s) ← readFixed 2 s
  let s ← expectCh 'T' s
  let (h, s) ← readFixed 2 s
  let s ← expectCh ':' s
  let (mi, s) ← readFixed 2 s
  let s ← expectCh ':' s
  let (sec, s) ← readFixed 2 s
  let (ns, s) ← readFrac s
  let s ← expectCh 'Z' s
  if 1 ≤ mo && mo ≤ 12 && 1 ≤ d && d ≤ daysInMonth y mo &&
      h ≤ 23 && mi ≤ 59 && sec ≤ 59 then
    some (⟨y, mo, d, h, mi, sec, ns⟩, s)
  else none

/-! ## String utilities

Character-list implementations of the `strings`/`filepath` helpers the Go
code uses (Go compares strings byte-wise; UTF-8 byte order coincides with
code-point order, so character-wise comparison is the same order).
`ToLower` is modelled on ASCII letters, the only case folding the modelled
inputs exercise. -/

def startsWithList : List Char → List Char → Bool
  | _, [] => true
  | [], _ :: _ => false
  | c :: s, p :: ps => c = p && startsWithList s ps

/-- `strings.HasPrefix`. -/
def strStartsWith (s pre : String) : Bool := startsWithList s.data pre.data

/-- `strings.HasSuffix`. -/
def strEndsWith (s suf : String) : Bool :=
  startsWithList s.data.reverse suf.data.reverse

/-- `strings.ToLower` (ASCII). -/
def strToLower (s : String) : String := String.mk (s.data.map Char.toLower)

def isSpaceGo (c : Char) : Bool :=
  c = ' ' || c = '\t' || c = '\n' || c = '\x0b' || c = '\x0c' || c = '\r' ||
  c.toNat = 133 || c.toNat = 160

/-- `strings.TrimSpace`. -/
def strTrim (s : String) : String :=
  String.mk ((s.data.dropWhile isSpaceGo).reverse.dropWhile isSpaceGo).reverse

def splitOnChAux (sep : Char) : List Char → List Char → List String
  | [], acc => [String.mk acc.reverse]
  | c :: rest, acc =>
    if c = sep then String.mk acc.reverse :: splitOnChAux sep rest []
    else splitOnChAux sep rest (c :: acc)

/-- `strings.Split` with a one-character separator. -/
def splitOnCh (sep : Char) (s : String) : List String := splitOnChAux sep s.data []

/-- Lexicographic (byte-wise) strict comparison, Go's `s < t`. -/
def strLtb : List Char → List Char → Bool
  | [], [] => false
  | [], _ :: _ => true
  | _ :: _, [] => false
  | a :: as, b :: bs =>
    if a.toNat < b.toNat then true
    else if b.toNat < a.toNat then false
    else strLtb as bs

def strLt (a b : String) : Bool := strLtb a.data b.data

def strLe (a b : String) : Bool := !(strLt b a)

/-! ## JSON string escaping

`encoding/json`'s string encoder with its default HTML escaping: `"`, `\`,
`\n`, `\r`, `\t` get two-character escapes; other control characters and the
HTML-sensitive `<`, `>`, `&` become `\u00xx` (lowercase hex); U+2028/U+2029
become ` `/` `; everything else is emitted literally. -/

def hexDigCh (n : Nat) : Char :=
  if n < 10 then digitCh n else Char.ofNat (87 + n)

def isHexDigCh (c : Char) : Bool :=
  (48 ≤ c.toNat && c.toNat ≤ 57) || (97 ≤ c.toNat && c.toNat ≤ 102) ||
  (65 ≤ c.toNat && c.toNat ≤ 70)

def hexVal (c : Char) : Nat :=
  if c.toNat ≤ 57 then c.toNat - 48
  else if c.toNat ≤ 70 then c.toNat - 55
  else c.toNat - 87

def escapeChar (c : Char) : List Char :=
  if c = '"' then ['\\', '"']
  else if c = '\\' then ['\\', '\\']
  else if c = '\n' then ['\\', 'n']
  else if c = '\r' then ['\\', 'r']
  else if c = '\t' then ['\\', 't']
  else if c.toNat < 32 || c = '<' || c = '>' || c = '&' then
    ['\\', 'u', '0', '0', hexDigCh (c.toNat / 16), hexDigCh (c.toNat % 16)]
  else if c.toNat = 8232 || c.toNat = 8233 then
    ['\\', 'u', '2', '0', '2', hexDigCh (c.toNat % 16)]
  else [c]

def escapeList (l : List Char) : List Char := l.flatMap escapeChar

/-- A JSON string literal (both quotes included). -/
def renderJsonString (s : String) : List Char :=
  '"' :: escapeList s.data ++ ['"']

def hexVal4 (a b c d : Char) : Option Nat :=
  if isHexDigCh a && isHexDigCh b && isHexDigCh c && isHexDigCh d then
    some (((hexVal a * 16 + hexVal b) * 16 + hexVal c) * 16 + hexVal d)
  else none

/-- Body of a JSON string literal up to and past the closing quote,
decoding escapes the way `encoding/json` does.  (`\uXXXX` is decoded as a
single code point; the encoder above never emits surrogate halves.) -/
def parseStringBody : List Char → Option (List Char × List Char)
  | [] => none
  | c :: rest =>
    if c = '"' then some ([], rest)
    else if c = '\\' then
      match rest with
      | [] => none
      | e :: t =>
        if e = '"' then (fun p => ('"' :: p.1, p.2)) <$> parseStringBody t
        else if e = '\\' then (fun p => ('\\' :: p.1, p.2)) <$> parseStringBody t
        else if e = '/' then (fun p => ('/' :: p.1, p.2)) <$> parseStringBody t
        else if e = 'n' then (fun p => ('\n' :: p.1, p.2)) <$> parseStringBody t
        else if e = 'r' then (fun p => ('\r' :: p.1, p.2)) <$> parseStringBody t
        else if e = 't' then (fun p => ('\t' :: p.1, p.2)) <$> parseStringBody t
        else if e = 'b' then (fun p => ('\x08' :: p.1, p.2)) <$> parseStringBody t
        else if e = 'f' then (fun p => ('\x0c' :: p.1, p.2)) <$> parseStringBody t
        else if e = 'u' then
          match t with
          | a :: b :: c2 :: d :: t2 =>
            match hexVal4 a b c2 d with
            | some v => (fun p => (Char.ofNat v :: p.1, p.2)) <$> parseStringBody t2
            | none => none
          | _ => none
        else none
    else (fun p => (c :: p.1, p.2)) <$> parseStringBody rest

def isWs (c : Char) : Bool :=
  c = ' ' || c = '\n' || c = '\t' || c = '\r'

def skipWs (s : List Char) : List Char := s.dropWhile isWs

/-- A JSON string literal: opening quote then body. -/
def parseJsonString (s : List Char) : Option (String × List Char) :=
  match skipWs s with
  | '"' :: t => (fun p => (String.mk p.1, p.2)) <$> parseStringBody t
  | _ => none

/-! ## JSON objects (the fragment `addons.json` uses)

The document written by `StoreManager.Save` is three nested objects whose
leaves are strings, so the parser (modelling `json.Unmarshal` on that
fragment) is an object parser generic in its member-value parser. -/

/-- Members of an object after its `{`: repeatedly key, `:`, value, then
`,` or `}`.  The fuel only bounds the number of members. -/
def parseMembers (pv : List Char → Option (α × List Char)) :
    Nat → List Char → Option (List (String × α) × List Char)
  | 0, _ => none
  | fuel+1, s => do
    let (k, s) ← parseJsonString s
    let s ← expectCh ':' (skipWs s)
    let (v, s) ← pv s
    match skipWs s with
    | ',' :: s' =>
      (fun p => ((k, v) :: p.1, p.2)) <$> parseMembers pv fuel s'
    | '\x7d' :: s' => some ([(k, v)], s')
    | _ => none

/-- A JSON object with values read by `pv`. -/
def parseObjectWith (pv : List Char → Option (α × List Char))
    (s : List Char) : Option (List (String × α) × List Char) :=
  match skipWs s with
  | '\x7b' :: s' =>
    match skipWs s' with
    | '\x7d' :: s'' => some ([], s'')
    | _ => parseMembers pv (s'.length + 1) s'
  | _ => none

/-! ## The metadata store

`AddonMetadata` is the persisted unit; a `Store` is the `addons` map of
`addons.json`, represented as an association list (a Go map is a finite map;
its keys are distinct). -/

structure AddonMetadata where
  gitURL : String
  installedAt : Time
  updatedAt : Time
deriving DecidableEq, Repr

def Store := List (String × AddonMetadata)

instance : DecidableEq Store := by unfold Store; infer_instance

def storeLookup (s : Store) (k : String) : Option AddonMetadata :=
  match s with
  | [] => none
  | (k', v) :: t => if k' = k then some v else storeLookup t k

/-- Go map assignment `m[k] = v`. -/
def storeSet (s : Store) (k : String) (v : AddonMetadata) : Store :=
  (k, v) :: s.filter (fun p => p.1 ≠ k)

/-- Go map deletion `delete(m, k)`. -/
def storeDelete (s : Store) (k : String) : Store :=
  s.filter (fun p => p.1 ≠ k)

def storeNames (s : Store) : List String := s.map Prod.fst

/-! ## `StoreManager.Save`: serializing the store

`Save` runs `json.MarshalIndent(store, "", "  ")`: map keys sorted
ascending, two-space indentation, `time.Time` fields as RFC3339Nano
strings. -/

def sortByKey (s : Store) : Store :=
  s.insertionSort (fun a b => strLe a.1 b.1 = true)

def chars (s : String) : List Char := s.data

/-- One member line: `indent "key": value`. -/
def renderMember (ind : Nat) (k : String) (v : List Char) : List Char :=
  List.replicate ind ' ' ++ renderJsonString k ++ chars ": " ++ v

/-- Members joined by `,\n`, then the closing `\n indent }`. -/
def membersBlock (ind close : Nat) : List (String × List Char) → List Char
  | [] => '\n' :: List.replicate close ' ' ++ ['\x7d']
  | [(k, v)] => renderMember ind k v ++ '\n' :: List.replicate close ' ' ++ ['\x7d']
  | (k, v) :: rest => renderMember ind k v ++ ',' :: '\n' :: membersBlock ind close rest

/-- A pretty-printed object at the given indentation depth. -/
def renderObject (ind close : Nat) (items : List (String × List Char)) : List Char :=
  match items with
  | [] => chars "\x7b\x7d"
  | _ => '\x7b' :: '\n' :: membersBlock ind close items

def renderTimeString (t : Time) : List Char :=
  '"' :: fmtRFC3339Nano t ++ ['"']

def renderMeta (m : AddonMetadata) : List Char :=
  renderObject 6 4
    [("git_url", renderJsonString m.gitURL),
     ("installed_at", renderTimeString m.installedAt),
     ("updated_at", renderTimeString m.updatedAt)]

def renderAddonsMap (s : Store) : List Char :=
  renderObject 4 2 (s.map (fun p => (p.1, renderMeta p.2)))

def renderStore (s : Store) : List Char :=
  renderObject 2 0 [("addons", renderAddonsMap (sortByKey s))]

/-- The file content `StoreManager.Save` writes. -/
def saveStore (s : Store) : String := String.mk (renderStore s)

/-! ## `StoreManager.Load`: parsing the store -/

/-- A string-valued member; the timestamp is then RFC3339-parsed in full,
as `time.Time.UnmarshalJSON` does. -/
def parseTimeValue (s : List Char) : Option (Time × List Char) := do
  let (str, rest) ← parseJsonString s
  match parseRFC3339 str.data with
  | some (t, []) => some (t, rest)
  | _ => none

/-- A metadata object: its members are JSON strings, assembled into the
`AddonMetadata` fields; unknown keys are ignored, later duplicates
overwrite, absent fields keep their zero values (as `json.Unmarshal`
behaves on this struct). -/
def parseMetaValue (s : List Char) : Option (AddonMetadata × List Char) := do
  let (ms, rest) ← parseObjectWith parseJsonString s
  let meta ← buildMeta ms ⟨"", timeZero, timeZero⟩
  some (meta, rest)
where
  buildMeta : List (String × String) → AddonMetadata → Option AddonMetadata
    | [], m => some m
    | (k, v) :: t, m =>
      if k = "git_url" then buildMeta t { m with gitURL := v }
      else if k = "installed_at" then
        match parseRFC3339 v.data with
        | some (tm, []) => buildMeta t { m with installedAt := tm }
        | _ => none
      else if k = "updated_at" then
        match parseRFC3339 v.data with
        | some (tm, []) => buildMeta t { m with updatedAt := tm }
        | _ => none
      else buildMeta t m

/-- Decoding a JSON object into a `map[string]AddonMetadata`: successive
assignment, so a later duplicate key overwrites an earlier one. -/
def buildMap (ms : List (String × AddonMetadata)) : Store :=
  ms.foldl (fun s p => storeSet s p.1 p.2) []

def parseAddonsValue (s : List Char) : Option (Store × List Char) := do
  let (ms, rest) ← parseObjectWith parseMetaValue s
  some (buildMap ms, rest)

/-- `json.Unmarshal` of the whole document into `Store`: the top-level
object's `addons` member (a missing member leaves the nil map, which
`Load` replaces by an empty one); trailing non-whitespace is an error. -/
def parseStore (s : List Char) : Option Store := do
  let (ms, rest) ← parseObjectWith parseAddonsValue s
  if skipWs rest = [] then
    some (ms.foldl (fun acc p => if p.1 = "addons" then p.2 else acc) [])
  else none

/-- `StoreManager.Load` on a present file: parse, never mutating disk. -/
def loadStore (content : String) : Option Store := parseStore content.data

/-! ## Save as seen by a concurrent reader

`Save` writes with `os.WriteFile(path, data, 0644)`: the destination is
opened with `O_TRUNC` and the bytes are then written in place.  The
observable contents of `addons.json` over the course of one `Save` are
therefore: the old content, then (after truncation) every prefix of the new
content as the write progresses, ending with the full new content. -/

def saveWriteStates (oldContent newContent : String) : List String :=
  oldContent :: (List.range (newContent.length + 1)).map (fun k => newContent.take k)

/-! ## The backup engine (`BackupManager`)

The state of one addon's backup directory `<dataDir>/backups/<name>` is the
list of its entry names (directory entries are pairwise distinct).  A
successful `CreateBackup` copies the addon into a new entry named by the
`YYYYMMDD-HHMMSS` timestamp and then evicts; `ListBackups` lists the
subdirectory names sorted newest-first (`sort.Sort(sort.Reverse(...))`). -/

def MaxBackupsPerAddon : Nat := 3

/-- `time.Now().Format("20060102-150405")`. -/
def backupTimestamp (t : Time) : String :=
  String.mk (padDigits 4 t.year ++ padDigits 2 t.month ++ padDigits 2 t.day ++
    '-' :: padDigits 2 t.hour ++ padDigits 2 t.minute ++ padDigits 2 t.second)

/-- `ListBackups`: the entries sorted descending (newest first). -/
def listBackups (entries : List String) : List String :=
  entries.insertionSort (fun a b => strLe b a = true)

/-- `cleanupOldBackups`: delete every entry listed beyond the retention
limit; the remaining directory entries are those not deleted. -/
def cleanupOldBackups (entries : List String) : List String :=
  let backups := listBackups entries
  if backups.length ≤ MaxBackupsPerAddon then entries
  else entries.filter (fun e => e ∉ backups.drop MaxBackupsPerAddon)

/-- A successful `CreateBackup` at timestamp `ts`: the copied directory
appears among the entries, then eviction runs. -/
def createBackup (ts : String) (entries : List String) : List String :=
  cleanupOldBackups (ts :: entries)

/-- A string whose first character is a decimal digit, as every
`YYYYMMDD-HHMMSS` backup timestamp is. -/
def startsWithDigit (s : String) : Bool :=
  match s.data with
  | c :: _ => isDigitCh c
  | [] => false

/-- `BackupSavedVariables`: the `WTF/Account` files whose name starts with
the addon name and ends in `.lua`. -/
def savedVarFiles (wtfFiles : List String) (addonName : String) : List String :=
  wtfFiles.filter (fun f => strStartsWith f addonName && strEndsWith f ".lua")

/-- A successful `BackupSavedVariables` call: when matching files exist it
creates `<backups>/<name>/savedvariables/<timestamp>/…`, adding the literal
entry `savedvariables` to the addon's backup directory (when none exist it
returns without creating anything). -/
def backupSavedVariables (wtfFiles : List String) (addonName : String)
    (entries : List String) : List String :=
  if savedVarFiles wtfFiles addonName = [] then entries
  else if "savedvariables" ∈ entries then entries
  else "savedvariables" :: entries

/-! ## The descriptor (.toc) parser -/

structure TOCInfo where
  title : String
  version : String
  author : String
  notes : String
  interfaceVer : String
deriving DecidableEq, Repr

def emptyTOCInfo : TOCInfo := ⟨"", "", "", "", ""⟩

def isHexColorCh (c : Char) : Bool :=
  (48 ≤ c.toNat && c.toNat ≤ 57) || (97 ≤ c.toNat && c.toNat ≤ 102) ||
  (65 ≤ c.toNat && c.toNat ≤ 70)

/-- `wowColorCodeRegex.ReplaceAllString(s, "")`: leftmost scan removing
each `|cXXXXXXXX` (eight hex digits) or `|r` occurrence.  The fuel is the
input length (each step consumes at least one character), keeping the
recursion structural. -/
def stripColorFuel : Nat → List Char → List Char
  | 0, l => l
  | _, [] => []
  | fuel+1, '|' :: rest =>
    match rest with
    | 'c' :: h1 :: h2 :: h3 :: h4 :: h5 :: h6 :: h7 :: h8 :: t =>
      if isHexColorCh h1 && isHexColorCh h2 && isHexColorCh h3 && isHexColorCh h4 &&
          isHexColorCh h5 && isHexColorCh h6 && isHexColorCh h7 && isHexColorCh h8 then
        stripColorFuel fuel t
      else '|' :: stripColorFuel fuel rest
    | 'r' :: t => stripColorFuel fuel t
    | _ => '|' :: stripColorFuel fuel rest
  | fuel+1, c :: rest => c :: stripColorFuel fuel rest

def stripColorList (l : List Char) : List Char := stripColorFuel l.length l

def stripWoWColorCodes (s : String) : String :=
  String.mk (stripColorList s.data)

/-- `strings.SplitN(s, ":", 2)` when a colon is present. -/
def splitFirstColon (s : String) : Option (String × String) :=
  match splitOnCh ':' s with
  | [] => none
  | [_] => none
  | k :: rest => some (k, String.intercalate ":" rest)

/-- One scanner line of `ParseTOC`. -/
def parseTOCLine (info : TOCInfo) (line : String) : TOCInfo :=
  let t := strTrim line
  if !strStartsWith t "##" then info
  else
    let body := strTrim (t.drop 2)
    match splitFirstColon body with
    | none => info
    | some (k, v) =>
      let key := strToLower (strTrim k)
      let value := strTrim v
      if key = "title" then { info with title := stripWoWColorCodes value }
      else if key = "version" then { info with version := value }
      else if key = "author" then { info with author := value }
      else if key = "notes" then { info with notes := stripWoWColorCodes value }
      else if key = "interface" then { info with interfaceVer := value }
      else info

/-- `ParseTOC` over the file's lines (file I/O errors are out of model). -/
def parseTOCLines (lines : List String) : TOCInfo :=
  lines.foldl parseTOCLine emptyTOCInfo

/-! ## Directory contents

An addon directory's contents, to the two levels `FindTOCFile` inspects
(deeper content never influences a modelled decision; whole-tree moves are
modelled as moves of the `Entry` list). -/

structure SubEntry where
  name : String
  isDir : Bool
  lines : List String
deriving DecidableEq, Repr

inductive Entry where
  | file (name : String) (lines : List String)
  | subdir (name : String) (entries : List SubEntry)
deriving DecidableEq, Repr

def Entry.name : Entry → String
  | .file n _ => n
  | .subdir n _ => n

/-- `filepath.Ext`: the suffix from the final dot, empty if none. -/
def trimExtension (s : String) : String :=
  match splitOnCh '.' s with
  | [] => s
  | [_] => s
  | parts => String.intercalate "." parts.dropLast

def isTocName (n : String) : Bool := strEndsWith (strToLower n) ".toc"

def findTOCInSub : List SubEntry → Option (String × String)
  | [] => none
  | e :: rest =>
    if !e.isDir && isTocName e.name then some (e.name, trimExtension e.name)
    else findTOCInSub rest

def findTOCRoot : List Entry → Option (String × String)
  | [] => none
  | .file n _ :: rest =>
    if isTocName n then some (n, trimExtension n) else findTOCRoot rest
  | .subdir _ _ :: rest => findTOCRoot rest

def findTOCSubdirs : List Entry → Option (String × String)
  | [] => none
  | .file _ _ :: rest => findTOCSubdirs rest
  | .subdir n es :: rest =>
    if strStartsWith n "." then findTOCSubdirs rest
    else
      match findTOCInSub es with
      | some r => some r
      | none => findTOCSubdirs rest

/-- `FindTOCFile`: first a manifest in the root, then in one level of
non-hidden subdirectories; returns the manifest's base name and the
derived addon name (filename minus extension). -/
def findTOCFile (content : List Entry) : Option (String × String) :=
  match findTOCRoot content with
  | some r => some r
  | none => findTOCSubdirs content

/-- The lines of a root-level file, if present (used where the source
re-reads `filepath.Join(addonPath, filepath.Base(tocPath))`). -/
def rootFileLines : List Entry → String → Option (List String)
  | [], _ => none
  | .file n ls :: rest, base => if n = base then some ls else rootFileLines rest base
  | .subdir _ _ :: rest, base => rootFileLines rest base

def findTOCLinesInSub : List SubEntry → Option (List String)
  | [] => none
  | e :: rest =>
    if !e.isDir && isTocName e.name then some e.lines
    else findTOCLinesInSub rest

def findTOCLinesRoot : List Entry → Option (List String)
  | [] => none
  | .file n ls :: rest => if isTocName n then some ls else findTOCLinesRoot rest
  | .subdir _ _ :: rest => findTOCLinesRoot rest

def findTOCLinesSubdirs : List Entry → Option (List String)
  | [] => none
  | .file _ _ :: rest => findTOCLinesSubdirs rest
  | .subdir n es :: rest =>
    if strStartsWith n "." then findTOCLinesSubdirs rest
    else
      match findTOCLinesInSub es with
      | some r => some r
      | none => findTOCLinesSubdirs rest

/-- The manifest's lines at the path `FindTOCFile` returns (root or
subdirectory), as `GetInfo` reads them. -/
def findTOCLines (content : List Entry) : Option (List String) :=
  match findTOCLinesRoot content with
  | some r => some r
  | none => findTOCLinesSubdirs content

/-! ## The source-control adapter (git.go)

A working copy opened by `git.PlainOpen` is a `GitState`; `git = none`
models a directory that is not a repository.  The network is a parameter:
remote branch heads per URL (for `Fetch`), the tree of each commit (for the
hard reset), and the result of a full clone per URL. -/

structure GitState where
  clean : Bool
  headOk : Bool
  headHash : Nat
  headBranch : String
  remoteBranches : List (String × Nat)
  originURL : Option String
deriving DecidableEq, Repr

inductive GitErr where
  | notGitRepo
  | ffNotPossible
  | noRemote
  | alreadyUpToDate
  | fetchFailed
  | headFailed
  | noRemoteBranch
deriving DecidableEq, Repr

structure AddonDirState where
  name : String
  content : List Entry
  git : Option GitState
deriving DecidableEq, Repr

structure Network where
  remoteRefs : String → Option (List (String × Nat))
  commitTree : Nat → List Entry
  cloneRepo : String → Option (List Entry × GitState)

/-- `IsGitRepo`: `git.PlainOpen` succeeds. -/
def isGitRepo (d : AddonDirState) : Bool := d.git.isSome

/-- `GetRepoRemoteURL`: the configured `origin` URL. -/
def getRepoRemoteURL (d : AddonDirState) : Except GitErr String :=
  match d.git with
  | none => .error .notGitRepo
  | some g =>
    match g.originURL with
    | none => .error .noRemote
    | some u => .ok u

/-- `VerifyRepoIntegrity`: `.git` present, repository opens, HEAD resolves
(a directory whose `.git` is missing or unopenable has `git = none`). -/
def verifyRepoIntegrity (d : AddonDirState) : Bool :=
  match d.git with
  | none => false
  | some g => g.headOk

/-- Resolving the remote tracking reference: the current branch, falling
back to `main` then `master`. -/
def resolveRemoteRef (branch : String) (rbs : List (String × Nat)) : Option Nat :=
  match rbs.lookup branch with
  | some h => some h
  | none =>
    match rbs.lookup "main" with
    | some h => some h
    | none => rbs.lookup "master"

/-- `UpdateRepo`: open, status check (fail `ffNotPossible` on a dirty tree
before anything is written), fetch, resolve the remote ref, compare, and
hard-reset the worktree to the remote commit.  The returned state carries
whatever the call changed before succeeding or failing. -/
def updateRepo (net : Network) (d : AddonDirState) :
    Except GitErr Unit × AddonDirState :=
  match d.git with
  | none => (.error .notGitRepo, d)
  | some g =>
    if !g.clean then (.error .ffNotPossible, d)
    else
      match g.originURL with
      | none => (.error .fetchFailed, d)
      | some url =>
        match net.remoteRefs url with
        | none => (.error .fetchFailed, d)
        | some rbs =>
          let g1 := { g with remoteBranches := rbs }
          let d1 := { d with git := some g1 }
          if !g.headOk then (.error .headFailed, d1)
          else
            match resolveRemoteRef g.headBranch rbs with
            | none => (.error .noRemoteBranch, d1)
            | some target =>
              if g.headHash = target then (.error .alreadyUpToDate, d1)
              else
                (.ok (),
                 { d with content := net.commitTree target,
                          git := some { g1 with headHash := target, clean := true } })

/-- `CheckForUpdates`: fetch and compare, no write to the worktree. -/
def checkForUpdates (net : Network) (d : AddonDirState) :
    Except GitErr Bool × AddonDirState :=
  match d.git with
  | none => (.error .notGitRepo, d)
  | some g =>
    match g.originURL with
    | none => (.error .fetchFailed, d)
    | some url =>
      match net.remoteRefs url with
      | none => (.error .fetchFailed, d)
      | some rbs =>
        let d1 := { d with git := some { g with remoteBranches := rbs } }
        if !g.headOk then (.error .headFailed, d1)
        else
          match resolveRemoteRef g.headBranch rbs with
          | none => (.error .noRemoteBranch, d1)
          | some target => (.ok (g.headHash ≠ target), d1)

/-- `ValidateGitURL`. -/
def validateGitURL (url : String) : Bool :=
  let u := strToLower url
  strStartsWith u "https://" || strStartsWith u "git@" || strStartsWith u "git://"

/-- `NormalizeGitURL`. -/
def normalizeGitURL (url : String) : String :=
  if strEndsWith url ".git" then url else url ++ ".git"

def trimSuffixGo (s suffix : String) : String :=
  if strEndsWith s suffix then s.dropRight suffix.length else s

/-- `ExtractRepoName`: strip `.git`, take the last `/`-segment, strip the
`-master`/`-main`/`-trunk` suffixes. -/
def extractRepoName (gitURL : String) : String :=
  let name := trimSuffixGo gitURL ".git"
  let parts := splitOnCh '/' name
  let name := parts.getLastD name
  let name := trimSuffixGo name "-master"
  let name := trimSuffixGo name "-main"
  trimSuffixGo name "-trunk"

/-! ## The addon manager world

`World` is the state a manager call can read or write: the addons root's
directory entries (the directories; stray plain files are skipped
identically by every modelled operation), the in-memory store, the backup
tree, the wall clock and the network.  `store.Save()` persists the store;
claims about its on-disk serialization use `saveStore`/`loadStore` above,
and the in-memory mapping is what manager operations act on. -/

structure World where
  net : Network
  dirs : List AddonDirState
  store : Store
  backups : List (String × List String)
  now : Time

def findDir (l : List AddonDirState) (name : String) : Option AddonDirState :=
  match l with
  | [] => none
  | d :: t => if d.name = name then some d else findDir t name

/-- `os.Stat` on `<addonsDir>/<name>` succeeding. -/
def dirExists (w : World) (name : String) : Bool :=
  (findDir w.dirs name).isSome

def backupEntriesFor (w : World) (name : String) : List String :=
  ((w.backups.lookup name).getD [])

def setBackupEntries (w : World) (name : String) (es : List String) : World :=
  { w with backups := (name, es) :: w.backups.filter (fun p => p.1 ≠ name) }

/-- The manager invoking `backup.CreateBackup(addonPath, name)`. -/
def managerCreateBackup (w : World) (name : String) : World :=
  setBackupEntries w name (createBackup (backupTimestamp w.now) (backupEntriesFor w name))

def removeDirWorld (w : World) (name : String) : World :=
  { w with dirs := w.dirs.filter (fun d => d.name ≠ name) }

def replaceDir (l : List AddonDirState) (d : AddonDirState) : List AddonDirState :=
  l.map (fun x => if x.name = d.name then d else x)

inductive MgrErr where
  | addonNotFound (name : String)
  | addonExists (name : String)
  | invalidURL
  | cloneFailed
  | notRepoNoURL
  | localModifications (name : String)
  | gitFailed (e : GitErr)
deriving DecidableEq, Repr

structure InstallResult where
  name : String
  title : String
  path : String
deriving DecidableEq, Repr

structure UpdateResult where
  updated : Bool
  alreadyUpToDate : Bool
  reCloned : Bool
deriving DecidableEq, Repr

/-- The `Addon` record (paths are relative to the addons root). -/
structure Addon where
  name : String
  title : String
  version : String
  author : String
  notes : String
  gitURL : String
  path : String
  installedAt : Time
  updatedAt : Time
deriving DecidableEq, Repr

def bareAddon (name : String) : Addon :=
  ⟨name, "", "", "", "", "", name, timeZero, timeZero⟩

/-! ## Manager operations -/

/-- `Manager.Install`.  On clone failure `CleanupFailedClone` removes the
partial (non-repository) destination, so the failing call leaves the world
as it was. -/
def managerInstall (w : World) (url : String) : Except MgrErr InstallResult × World :=
  if !validateGitURL url then (.error .invalidURL, w)
  else
    let gitURL := normalizeGitURL url
    let addonName := extractRepoName gitURL
    if dirExists w addonName then (.error (.addonExists addonName), w)
    else
      match w.net.cloneRepo gitURL with
      | none => (.error .cloneFailed, w)
      | some (content, g) =>
        let w1 : World := { w with dirs := w.dirs ++ [⟨addonName, content, some g⟩] }
        let found := findTOCFile content
        let tocName := (found.map Prod.snd).getD ""
        let (w2, finalName) :=
          if tocName ≠ "" && tocName ≠ addonName then
            if dirExists w1 tocName then (w1, addonName)
            else
              ({ w1 with dirs := w1.dirs.map (fun d =>
                   if d.name = addonName then { d with name := tocName } else d) },
               tocName)
          else (w1, addonName)
        let tocInfo :=
          match found with
          | some (base, _) => (rootFileLines content base).map parseTOCLines
          | none => none
        let w3 := { w2 with store := storeSet w2.store finalName ⟨gitURL, w.now, w.now⟩ }
        let title :=
          match tocInfo with
          | some i => if i.title ≠ "" then i.title else finalName
          | none => finalName
        (.ok ⟨finalName, title, finalName⟩, w3)

/-- `Manager.Update`: re-clone from the stored URL when the directory is
not a repository, otherwise delegate to `UpdateRepo` and map its
outcomes. -/
def managerUpdate (w : World) (name : String) : Except MgrErr UpdateResult × World :=
  match findDir w.dirs name with
  | none => (.error (.addonNotFound name), w)
  | some d =>
    if !isGitRepo d then
      match storeLookup w.store name with
      | none => (.error .notRepoNoURL, w)
      | some meta =>
        if meta.gitURL = "" then (.error .notRepoNoURL, w)
        else
          let w1 := managerCreateBackup w name
          let w2 := removeDirWorld w1 name
          match w.net.cloneRepo meta.gitURL with
          | none => (.error .cloneFailed, w2)
          | some (content, g) =>
            let w3 := { w2 with dirs := w2.dirs ++ [(⟨name, content, some g⟩ : AddonDirState)] }
            let w4 := { w3 with store := storeSet w3.store name { meta with updatedAt := w.now } }
            (.ok ⟨true, false, true⟩, w4)
    else
      let (r, d') := updateRepo w.net d
      let w1 := { w with dirs := replaceDir w.dirs d' }
      match r with
      | .error .alreadyUpToDate => (.ok ⟨false, true, false⟩, w1)
      | .error .ffNotPossible => (.error (.localModifications name), w1)
      | .error e => (.error (.gitFailed e), w1)
      | .ok () =>
        let w2 :=
          match storeLookup w1.store name with
          | some meta =>
            { w1 with store := storeSet w1.store name { meta with updatedAt := w.now } }
          | none => w1
        (.ok ⟨true, false, false⟩, w2)

/-- `Manager.GetInfo`: display fields from the manifest (best effort),
tracking fields from the store, else the origin remote as a display-only
fallback. -/
def managerGetInfo (w : World) (name : String) : Except MgrErr Addon × World :=
  match findDir w.dirs name with
  | none => (.error (.addonNotFound name), w)
  | some d =>
    let a0 : Addon := { bareAddon name with path := name }
    let a1 :=
      match findTOCLines d.content with
      | some lines =>
        let i := parseTOCLines lines
        { a0 with title := i.title, version := i.version,
                  author := i.author, notes := i.notes }
      | none => a0
    let a2 :=
      match storeLookup w.store name with
      | some meta =>
        { a1 with gitURL := meta.gitURL, installedAt := meta.installedAt,
                  updatedAt := meta.updatedAt }
      | none =>
        match getRepoRemoteURL d with
        | .ok u => { a1 with gitURL := u }
        | .error _ => a1
    (.ok a2, w)

/-! ## Listing and the default-addon classifier -/

def defaultAddons : List String :=
  ["Blizzard_AuctionUI", "Blizzard_BattlefieldMinimap", "Blizzard_BindingUI",
   "Blizzard_CombatText", "Blizzard_CraftUI", "Blizzard_GMChatUI",
   "Blizzard_GMSurveyUI", "Blizzard_InspectUI", "Blizzard_MacroUI",
   "Blizzard_RaidUI", "Blizzard_TalentUI", "Blizzard_TradeSkillUI",
   "Blizzard_TrainerUI"]

def isDefaultAddon (name : String) : Bool := name ∈ defaultAddons

/-- The status priority `ListInstalled` sorts by: default first, then
`GitURL != ""`, then the rest. -/
def getPriority (a : Addon) : Nat :=
  if isDefaultAddon a.name then 0
  else if a.gitURL ≠ "" then 1
  else 2

/-- The sort key of `ListInstalled` as a total preorder (the negation of
the source's strict `less` with the arguments flipped): priority, then
case-insensitive name. -/
def addonLe (a b : Addon) : Bool :=
  getPriority a < getPriority b ||
    (getPriority a = getPriority b && strLe (strToLower a.name) (strToLower b.name))

def nonHiddenDirs (l : List AddonDirState) : List AddonDirState :=
  l.filter (fun d => !strStartsWith d.name ".")

/-- The record `ListInstalled` builds for one directory entry: `GetInfo`'s
answer, or a bare name-and-path record when `GetInfo` fails. -/
def listRecord (w : World) (d : AddonDirState) : Addon :=
  match (managerGetInfo w d.name).1 with
  | .ok a => a
  | .error _ => { bareAddon d.name with path := d.name }

/-- `Manager.ListInstalled`: the non-hidden directories' records, sorted by
priority then case-insensitive name. -/
def listInstalled (w : World) : List Addon :=
  ((nonHiddenDirs w.dirs).map (listRecord w)).insertionSort
    (fun a b => addonLe a b)

/-! ## Repair -/

structure RepairResult where
  orphanedEntries : List String
  untrackedAddons : List String
  corruptedRepos : List String
  nameMismatches : List String
  totalScanned : Nat
  issuesFound : Nat
deriving DecidableEq, Repr

/-- The `NameMismatches` entry format. -/
def mismatchEntry (name tocName : String) : String :=
  name ++ " (should be " ++ tocName ++ ")"

/-- The per-folder body of `Repair`'s scan loop: skip default addons;
report (and, when a remote URL resolves, auto-track) untracked folders
against the pre-loop store snapshot; report corrupted repositories and
manifest/folder name mismatches. -/
def repairStep (snapshot : Store) (now : Time) (acc : RepairResult × Store)
    (d : AddonDirState) : RepairResult × Store :=
  if isDefaultAddon d.name then acc
  else
    let (r, st) := acc
    let (r, st) :=
      if (storeLookup snapshot d.name).isNone then
        let r := { r with untrackedAddons := r.untrackedAddons ++ [d.name],
                          issuesFound := r.issuesFound + 1 }
        match getRepoRemoteURL d with
        | .ok url => (r, storeSet st d.name ⟨url, now, now⟩)
        | .error _ => (r, st)
      else (r, st)
    let r :=
      if isGitRepo d && !verifyRepoIntegrity d then
        { r with corruptedRepos := r.corruptedRepos ++ [d.name],
                 issuesFound := r.issuesFound + 1 }
      else r
    let r :=
      match findTOCFile d.content with
      | some (_, tocName) =>
        if tocName ≠ d.name then
          { r with nameMismatches := r.nameMismatches ++ [mismatchEntry d.name tocName],
                   issuesFound := r.issuesFound + 1 }
        else r
      | none => r
    (r, st)

/-- `Manager.Repair`: scan the non-hidden directories, record orphaned
store entries, run the per-folder checks, then delete the orphaned entries
from the store. -/
def repair (now : Time) (store : Store) (dirs : List AddonDirState) :
    RepairResult × Store :=
  let folders := nonHiddenDirs dirs
  let orphans := (storeNames store).filter
    (fun n => !(folders.any (fun d => d.name = n)))
  let r0 : RepairResult :=
    ⟨orphans, [], [], [], folders.length, orphans.length⟩
  let (r, st) := folders.foldl (repairStep store now) (r0, store)
  let st := r.orphanedEntries.foldl storeDelete st
  (r, st)

/-! ### Characterizations of the scan loop

The following predicates read off `repairStep`'s branch conditions; the
closed-form lemmas below express `Repair`'s fold through them. -/

def remoteOKb (d : AddonDirState) : Bool :=
  match getRepoRemoteURL d with
  | .ok _ => true
  | .error _ => false

def urlOf (d : AddonDirState) : String :=
  match getRepoRemoteURL d with
  | .ok u => u
  | .error _ => ""

/-- The folder is reported untracked against the given store snapshot. -/
def untrackedCond (snapshot : Store) (d : AddonDirState) : Bool :=
  !isDefaultAddon d.name && (storeLookup snapshot d.name).isNone

def corruptedCond (d : AddonDirState) : Bool :=
  !isDefaultAddon d.name && (isGitRepo d && !verifyRepoIntegrity d)

def tocNameOf (d : AddonDirState) : String :=
  ((findTOCFile d.content).map Prod.snd).getD ""

def mismatchCond (d : AddonDirState) : Bool :=
  !isDefaultAddon d.name &&
    match findTOCFile d.content with
    | some (_, tocName) => tocName ≠ d.name
    | none => false

/-- Issues one folder contributes to the scan loop. -/
def issueCount (snapshot : Store) (d : AddonDirState) : Nat :=
  (if untrackedCond snapshot d then 1 else 0) +
  (if corruptedCond d then 1 else 0) +
  (if mismatchCond d then 1 else 0)

/-- The folder gets auto-tracked: untracked and its remote URL resolves. -/
def autoCond (snapshot : Store) (d : AddonDirState) : Bool :=
  untrackedCond snapshot d && remoteOKb d

/-- The store effect of one folder's scan step (auto-tracking). -/
def autoStep (snapshot : Store) (now : Time) (st : Store) (d : AddonDirState) : Store :=
  if untrackedCond snapshot d then
    match getRepoRemoteURL d with
    | .ok url => storeSet st d.name ⟨url, now, now⟩
    | .error _ => st
  else st

def autoFold (snapshot : Store) (now : Time) (st : Store)
    (ds : List AddonDirState) : Store :=
  ds.foldl (autoStep snapshot now) st

def delFold (st : Store) (ns : List String) : Store :=
  ns.foldl storeDelete st

/-- The orphaned store entries `Repair` detects: store names with no
matching scanned folder. -/
def repairOrphans (store : Store) (dirs : List AddonDirState) : List String :=
  (storeNames store).filter
    (fun n => !((nonHiddenDirs dirs).any (fun d => d.name = n)))

/-! ## The spec's notion of list priority (for comparison with the code's)

Modelled from the spec's words: `Tracked` means the Metadata Store holds an
entry for the addon name, so the spec's sort priority is Default = 0,
store entry present = 1, otherwise 2. -/

def specPriority (store : Store) (name : String) : Nat :=
  if isDefaultAddon name then 0
  else if (storeLookup store name).isSome then 1
  else 2

/-! ## Concrete states used by witnesses and counterexamples -/

def demoTime : Time := ⟨2025, 6, 15, 12, 30, 45, 0⟩

def emptyNetwork : Network :=
  ⟨fun _ => none, fun _ => [], fun _ => none⟩

/-- A clean clone state for a repository at the given URL. -/
def cleanClone (url : String) : GitState :=
  ⟨true, true, 1, "master", [], some url⟩

/-- A working copy with uncommitted local modifications. -/
def dirtyGit : GitState := ⟨false, true, 1, "master", [], some "https://e/u/Foo.git"⟩

def dirtyDir : AddonDirState := ⟨"Foo", [.file "core.lua" ["x = 1"]], some dirtyGit⟩

def dirtyWorld : World := ⟨emptyNetwork, [dirtyDir], [], [], demoTime⟩

/-- A directory that is not a repository and carries no manifest. -/
def untrackedDir : AddonDirState := ⟨"Foo", [], none⟩

/-- A remote whose repository's manifest name differs from the URL-derived
folder name. -/
def renameClone (u : String) : Option (List Entry × GitState) :=
  if u = "https://e/u/QuestTracker.git" then
    some ([.file "pfQuest.toc" ["## Title: PF"]], cleanClone u)
  else none

def renameNet : Network := ⟨fun _ => none, fun _ => [], renameClone⟩

def renameWorld : World := ⟨renameNet, [], [], [], demoTime⟩

/-- A remote whose repository's manifest name equals the URL-derived folder
name. -/
def plainClone (u : String) : Option (List Entry × GitState) :=
  if u = "https://e/u/MyAddon.git" then
    some ([.file "MyAddon.toc" ["## Title: My Addon"]], cleanClone u)
  else none

def plainNet : Network := ⟨fun _ => none, fun _ => [], plainClone⟩

def plainWorld : World := ⟨plainNet, [], [], [], demoTime⟩

/-- An untracked directory with a configured origin remote next to a
store-tracked directory. -/
def listDemoWorld : World :=
  ⟨emptyNetwork,
   [⟨"AAA", [], some (cleanClone "https://r/a.git")⟩, ⟨"BBB", [], none⟩],
   [("BBB", ⟨"https://r/b.git", demoTime, demoTime⟩)], [], demoTime⟩

/-! # Theorems

First the order theory of the byte-wise string comparison, then the claims
grouped by component. -/

theorem charToNat_inj {a b : Char} (h : a.toNat = b.toNat) : a = b :=
  Char.ext (UInt32.ext h)

theorem strLtb_irrefl (l : List Char) : strLtb l l = false := by
  induction l with
  | nil => rfl
  | cons c t ih => simp [strLtb, ih]

theorem bool_false_of_not {b : Bool} (h : ¬ b = true) : b = false := by
  cases b
  · rfl
  · exact absurd rfl h

theorem strLtb_asymm : ∀ {a b : List Char}, strLtb a b = true → strLtb b a = false
  | [], [], h => by exact Bool.noConfusion h
  | [], _ :: _, _ => rfl
  | _ :: _, [], h => by exact Bool.noConfusion h
  | a :: as, b :: bs, h => by
    unfold strLtb at h ⊢
    by_cases h1 : a.toNat < b.toNat
    · simp [h1, Nat.lt_asymm h1]
    · by_cases h2 : b.toNat < a.toNat
      · rw [if_neg h1, if_pos h2] at h
        exact Bool.noConfusion h
      · rw [if_neg h1, if_neg h2] at h
        rw [if_neg h2, if_neg h1]
        exact strLtb_asymm h

theorem strLtb_eq_of_not : ∀ {a b : List Char},
    strLtb a b = false → strLtb b a = false → a = b
  | [], [], _, _ => rfl
  | [], _ :: _, h, _ => by exact Bool.noConfusion h
  | _ :: _, [], _, h => by exact Bool.noConfusion h
  | a :: as, b :: bs, h1, h2 => by
    unfold strLtb at h1 h2
    by_cases hab : a.toNat < b.toNat
    · rw [if_pos hab] at h1
      exact Bool.noConfusion h1
    · by_cases hba : b.toNat < a.toNat
      · rw [if_pos hba] at h2
        exact Bool.noConfusion h2
      · rw [if_neg hab, if_neg hba] at h1
        rw [if_neg hba, if_neg hab] at h2
        have hc : a = b := charToNat_inj (Nat.le_antisymm (Nat.le_of_not_lt hba) (Nat.le_of_not_lt hab))
        rw [hc, strLtb_eq_of_not h1 h2]

theorem strLtb_trans : ∀ {a b c : List Char},
    strLtb a b = true → strLtb b c = true → strLtb a c = true
  | [], [], _, h1, _ => by exact Bool.noConfusion h1
  | [], _ :: _, [], _, h2 => by exact Bool.noConfusion h2
  | [], _ :: _, _ :: _, _, _ => rfl
  | _ :: _, [], _, h1, _ => by exact Bool.noConfusion h1
  | _ :: _, _ :: _, [], _, h2 => by exact Bool.noConfusion h2
  | a :: as, b :: bs, c :: cs, h1, h2 => by
    unfold strLtb at h1 h2 ⊢
    by_cases hab : a.toNat < b.toNat <;> by_cases hbc : b.toNat < c.toNat
    · simp [Nat.lt_trans hab hbc]
    · rw [if_neg hbc] at h2
      by_cases hcb : c.toNat < b.toNat
      · rw [if_pos hcb] at h2
        exact Bool.noConfusion h2
      · have hbceq : b = c := charToNat_inj (Nat.le_antisymm (Nat.le_of_not_lt hcb) (Nat.le_of_not_lt hbc))
        subst hbceq
        simp [hab]
    · rw [if_neg hab] at h1
      by_cases hba : b.toNat < a.toNat
      · rw [if_pos hba] at h1
        exact Bool.noConfusion h1
      · have habeq : a = b := charToNat_inj (Nat.le_antisymm (Nat.le_of_not_lt hba) (Nat.le_of_not_lt hab))
        subst habeq
        simp [hbc]
    · rw [if_neg hab] at h1
      rw [if_neg hbc] at h2
      by_cases hba : b.toNat < a.toNat
      · rw [if_pos hba] at h1
        exact Bool.noConfusion h1
      · by_cases hcb : c.toNat < b.toNat
        · rw [if_pos hcb] at h2
          exact Bool.noConfusion h2
        · rw [if_neg hba] at h1
          rw [if_neg hcb] at h2
          have habeq : a = b := charToNat_inj (Nat.le_antisymm (Nat.le_of_not_lt hba) (Nat.le_of_not_lt hab))
          subst habeq
          rw [if_neg hbc, if_neg hcb]
          exact strLtb_trans h1 h2

/-- Negated strict comparisons compose (the `≤`-transitivity behind the
sort orders). -/
theorem strLtb_not_trans {a b c : List Char} (h1 : strLtb b a = false)
    (h2 : strLtb c b = false) : strLtb c a = false := by
  by_cases hab : strLtb a b = true
  · by_cases hca : strLtb c a = true
    · have hcb := strLtb_trans hca hab
      rw [hcb] at h2
      exact Bool.noConfusion h2
    · exact bool_false_of_not hca
  · have habeq : a = b := strLtb_eq_of_not (bool_false_of_not hab) h1
    rw [← habeq] at h2
    exact h2

theorem strLe_total (a b : String) : strLe a b = true ∨ strLe b a = true := by
  unfold strLe strLt
  by_cases h : strLtb b.data a.data = true
  · right
    simp [strLtb_asymm h]
  · left
    simp [bool_false_of_not h]

theorem strLe_trans {a b c : String} (h1 : strLe a b = true) (h2 : strLe b c = true) :
    strLe a c = true := by
  unfold strLe strLt at h1 h2 ⊢
  simp only [Bool.not_eq_true'] at h1 h2 ⊢
  exact strLtb_not_trans h1 h2

theorem strLe_antisymm {a b : String} (h1 : strLe a b = true) (h2 : strLe b a = true) :
    a = b := by
  unfold strLe strLt at h1 h2
  simp only [Bool.not_eq_true'] at h1 h2
  exact String.ext (strLtb_eq_of_not h2 h1)


/-! ## C9: GetInfo mutates nothing -/

/-- C9: `GetInfo` populates the tracking fields from the store when present
and otherwise falls back to the working copy's configured remote, but it
never writes anything: the world (in particular the store's full
name-to-metadata mapping) is identical before and after any `GetInfo`
call. -/
theorem getInfo_never_mutates (w : World) (name : String) :
    (managerGetInfo w name).2 = w := by
  unfold managerGetInfo
  cases findDir w.dirs name <;> rfl

/-! ## C5: Save is not atomic for concurrent readers -/

/-- C5 (failing input): `Save` writes `addons.json` in place with
`os.WriteFile`, which truncates before writing; between the truncation and
the completed write a concurrent reader observes the empty file — a state
that is neither the complete old content nor the complete new content, so
the write-to-temp-then-rename visibility guarantee claimed for `Save` does
not hold of the code. -/
theorem save_truncation_state_visible :
    "" ∈ saveWriteStates (saveStore [])
        (saveStore [("pfQuest", ⟨"https://e/u/pfQuest.git", demoTime, demoTime⟩)]) ∧
    "" ≠ saveStore [] ∧
    "" ≠ saveStore [("pfQuest", ⟨"https://e/u/pfQuest.git", demoTime, demoTime⟩)] := by
  refine ⟨?_, ?_, ?_⟩ <;> decide

/-! ## C1: Update on a dirty working copy -/

theorem findDir_mem : ∀ {l : List AddonDirState} {n : String} {d : AddonDirState},
    findDir l n = some d → d ∈ l ∧ d.name = n
  | [], n, d, h => by simp [findDir] at h
  | x :: t, n, d, h => by
    unfold findDir at h
    by_cases hx : x.name = n
    · simp only [hx, if_pos rfl] at h
      cases h
      exact ⟨List.mem_cons_self _ _, hx⟩
    · rw [if_neg hx] at h
      have := findDir_mem h
      exact ⟨List.mem_cons_of_mem _ this.1, this.2⟩

theorem replaceDir_not_mem {d : AddonDirState} : ∀ {l : List AddonDirState},
    d.name ∉ l.map AddonDirState.name → replaceDir l d = l
  | [], _ => rfl
  | x :: t, h => by
    simp only [List.map_cons, List.mem_cons, not_or] at h
    unfold replaceDir
    simp only [List.map_cons]
    rw [if_neg (fun hc => h.1 hc.symm)]
    have := replaceDir_not_mem (show d.name ∉ t.map AddonDirState.name from h.2)
    unfold replaceDir at this
    rw [this]

theorem replaceDir_self : ∀ {l : List AddonDirState} {d : AddonDirState},
    (l.map AddonDirState.name).Nodup → findDir l d.name = some d → replaceDir l d = l
  | [], d, _, h => by simp [findDir] at h
  | x :: t, d, hnd, h => by
    unfold findDir at h
    simp only [List.map_cons, List.nodup_cons] at hnd
    by_cases hx : x.name = d.name
    · rw [if_pos hx] at h
      injection h with h
      subst h
      unfold replaceDir
      simp only [List.map_cons, ite_self]
      have ht : replaceDir t x = t := replaceDir_not_mem (hx ▸ hnd.1)
      unfold replaceDir at ht
      rw [ht]
    · rw [if_neg hx] at h
      have := replaceDir_self hnd.2 h
      unfold replaceDir at this ⊢
      simp only [List.map_cons, if_neg hx]
      rw [this]

/-- C1: calling `Update` on an addon whose working copy has uncommitted
local modifications (a dirty status) fails with the manager's "local
modifications exist" error — `UpdateRepo` returns `ErrFFNotPossible` before
fetching or resetting — and the world, in particular every file of the
working tree, is unchanged. -/
theorem update_blocked_by_local_changes (w : World) (name : String)
    (d : AddonDirState) (g : GitState)
    (hnd : (w.dirs.map AddonDirState.name).Nodup)
    (hd : findDir w.dirs name = some d) (hg : d.git = some g)
    (hclean : g.clean = false) :
    managerUpdate w name = (.error (.localModifications name), w) := by
  unfold managerUpdate
  rw [hd]
  simp only [isGitRepo, hg, Option.isSome_some, Bool.not_true, Bool.false_eq_true,
    if_neg (by simp : ¬(false = true))]
  unfold updateRepo
  rw [hg]
  simp only [hclean, Bool.not_false, if_pos rfl]
  have hrepl : replaceDir w.dirs d = w.dirs :=
    replaceDir_self hnd ((findDir_mem hd).2 ▸ hd)
  simp [hrepl]

/-- C1 witness: a concrete dirty working copy. -/
theorem update_blocked_witness :
    (dirtyWorld.dirs.map AddonDirState.name).Nodup ∧
    findDir dirtyWorld.dirs "Foo" = some dirtyDir ∧
    dirtyDir.git = some dirtyGit ∧
    dirtyGit.clean = false ∧
    managerUpdate dirtyWorld "Foo" = (.error (.localModifications "Foo"), dirtyWorld) :=
  ⟨by decide, by decide, by decide, by decide,
   update_blocked_by_local_changes dirtyWorld "Foo" dirtyDir dirtyGit (by decide) (by decide)
     (by decide) (by decide)⟩

/-! ## C3: backup retention -/

theorem listBackups_sorted (l : List String) :
    (listBackups l).Sorted (fun a b => strLe b a = true) := by
  haveI : IsTotal String (fun a b => strLe b a = true) := ⟨fun a b => strLe_total b a⟩
  haveI : IsTrans String (fun a b => strLe b a = true) :=
    ⟨fun _ _ _ h1 h2 => strLe_trans h2 h1⟩
  exact List.sorted_insertionSort _ l

theorem listBackups_perm (l : List String) : List.Perm (listBackups l) l :=
  List.perm_insertionSort _ l

theorem sorted_desc_eq_of_perm {l₁ l₂ : List String} (h : List.Perm l₁ l₂)
    (h1 : l₁.Sorted (fun a b => strLe b a = true))
    (h2 : l₂.Sorted (fun a b => strLe b a = true)) : l₁ = l₂ := by
  haveI : IsAntisymm String (fun a b => strLe b a = true) :=
    ⟨fun _ _ ha hb => strLe_antisymm hb ha⟩
  exact List.eq_of_perm_of_sorted h h1 h2

theorem listBackups_congr {l₁ l₂ : List String} (h : List.Perm l₁ l₂) :
    listBackups l₁ = listBackups l₂ :=
  sorted_desc_eq_of_perm ((listBackups_perm l₁).trans (h.trans (listBackups_perm l₂).symm))
    (listBackups_sorted l₁) (listBackups_sorted l₂)

/-- Evicting beyond the retention limit keeps exactly the first
`MaxBackupsPerAddon` entries of the newest-first listing. -/
theorem listBackups_cleanup (entries : List String) (h : entries.Nodup) :
    listBackups (cleanupOldBackups entries) =
      (listBackups entries).take MaxBackupsPerAddon := by
  unfold cleanupOldBackups
  by_cases hlen : (listBackups entries).length ≤ MaxBackupsPerAddon
  · rw [if_pos hlen, List.take_of_length_le hlen]
  · rw [if_neg hlen]
    have hperm : List.Perm entries (listBackups entries) := (listBackups_perm entries).symm
    have hnd : (listBackups entries).Nodup := hperm.nodup h
    have hsplit := List.take_append_drop MaxBackupsPerAddon (listBackups entries)
    have hnd2 : ((listBackups entries).take MaxBackupsPerAddon ++
        (listBackups entries).drop MaxBackupsPerAddon).Nodup := by
      rw [hsplit]; exact hnd
    have hdisj :
        ((listBackups entries).take MaxBackupsPerAddon).Disjoint
          ((listBackups entries).drop MaxBackupsPerAddon) :=
      (List.nodup_append.mp hnd2).2.2
    have hfperm :
        List.Perm (entries.filter (fun e => e ∉ (listBackups entries).drop MaxBackupsPerAddon))
          ((listBackups entries).take MaxBackupsPerAddon) := by
      refine (hperm.filter _).trans ?_
      have hsteps : (listBackups entries).filter
          (fun e => e ∉ (listBackups entries).drop MaxBackupsPerAddon) =
          ((listBackups entries).take MaxBackupsPerAddon).filter
            (fun e => e ∉ (listBackups entries).drop MaxBackupsPerAddon) ++
          ((listBackups entries).drop MaxBackupsPerAddon).filter
            (fun e => e ∉ (listBackups entries).drop MaxBackupsPerAddon) := by
        rw [← List.filter_append, hsplit]
      rw [hsteps]
      have h1 : ((listBackups entries).take MaxBackupsPerAddon).filter
          (fun e => e ∉ (listBackups entries).drop MaxBackupsPerAddon) =
          (listBackups entries).take MaxBackupsPerAddon := by
        rw [List.filter_eq_self]
        intro a ha
        simp only [decide_eq_true_eq]
        exact fun hmem => hdisj ha hmem
      have h2 : ((listBackups entries).drop MaxBackupsPerAddon).filter
          (fun e => e ∉ (listBackups entries).drop MaxBackupsPerAddon) = [] := by
        rw [List.filter_eq_nil_iff]
        intro a ha
        simp only [decide_eq_true_eq, not_not]
        exact ha
      rw [h1, h2, List.append_nil]
    have hsorted_take : ((listBackups entries).take MaxBackupsPerAddon).Sorted
        (fun a b => strLe b a = true) :=
      List.Pairwise.sublist (List.take_sublist _ _) (listBackups_sorted entries)
    exact sorted_desc_eq_of_perm
      ((listBackups_perm _).trans hfperm) (listBackups_sorted _) hsorted_take

/-- Inserting into a truncated newest-first listing and truncating again is
the same as inserting into the full listing and truncating. -/
theorem orderedInsert_take3 (ts : String) (l : List String) :
    (List.orderedInsert (fun a b => strLe b a = true) ts
      (l.take MaxBackupsPerAddon)).take MaxBackupsPerAddon =
    (List.orderedInsert (fun a b => strLe b a = true) ts l).take MaxBackupsPerAddon := by
  show (List.orderedInsert (fun a b => strLe b a = true) ts (l.take 3)).take 3 =
    (List.orderedInsert (fun a b => strLe b a = true) ts l).take 3
  rcases l with _ | ⟨a, _ | ⟨b, _ | ⟨c, t⟩⟩⟩
  · rfl
  · rfl
  · rfl
  · by_cases h1 : strLe a ts = true
    · simp [List.orderedInsert, h1]
    · by_cases h2 : strLe b ts = true
      · simp [List.orderedInsert, h1, h2]
      · by_cases h3 : strLe c ts = true
        · simp [List.orderedInsert, h1, h2, h3]
        · simp [List.orderedInsert, h1, h2, h3]

/-- The retention invariant: after any sequence of `CreateBackup` calls,
the backup directory holds exactly the top `MaxBackupsPerAddon` of all
timestamps created so far, newest first. -/
theorem createBackup_fold_invariant :
    ∀ (tss : List String) (state processed : List String),
      state.Nodup → (∀ x ∈ state, x ∈ processed) → (processed ++ tss).Nodup →
      listBackups state = (listBackups processed).take MaxBackupsPerAddon →
      listBackups (tss.foldl (fun s ts => createBackup ts s) state) =
        (listBackups (processed ++ tss)).take MaxBackupsPerAddon
  | [], state, processed, _, _, _, hinv => by
    simpa using hinv
  | ts :: tss, state, processed, hnd, hsub, hall, hinv => by
    have hts_proc : ts ∉ processed := by
      intro hmem
      exact (List.nodup_append.mp hall).2.2 hmem (List.mem_cons_self _ _)
    have hts_state : ts ∉ state := fun hmem => hts_proc (hsub ts hmem)
    have hcons_nd : (ts :: state).Nodup := List.nodup_cons.mpr ⟨hts_state, hnd⟩
    have hstep : listBackups (createBackup ts state) =
        (listBackups (processed ++ [ts])).take MaxBackupsPerAddon := by
      unfold createBackup
      rw [listBackups_cleanup _ hcons_nd]
      have h1 : listBackups (ts :: state) =
          List.orderedInsert (fun a b => strLe b a = true) ts (listBackups state) := rfl
      rw [h1, hinv, orderedInsert_take3 ts (listBackups processed)]
      have h2 : listBackups (ts :: processed) =
          List.orderedInsert (fun a b => strLe b a = true) ts (listBackups processed) := rfl
      rw [← h2]
      refine congrArg (List.take MaxBackupsPerAddon) (listBackups_congr ?_)
      have hp := @List.perm_middle String ts processed []
      rw [List.append_nil] at hp
      exact hp.symm
    have hnew_nd : (createBackup ts state).Nodup := by
      unfold createBackup cleanupOldBackups
      by_cases hc : (listBackups (ts :: state)).length ≤ MaxBackupsPerAddon
      · rw [if_pos hc]; exact hcons_nd
      · rw [if_neg hc]; exact hcons_nd.filter _
    have hnew_sub : ∀ x ∈ createBackup ts state, x ∈ processed ++ [ts] := by
      intro x hx
      have hx2 : x ∈ ts :: state := by
        unfold createBackup cleanupOldBackups at hx
        by_cases hc : (listBackups (ts :: state)).length ≤ MaxBackupsPerAddon
        · rw [if_pos hc] at hx; exact hx
        · rw [if_neg hc] at hx; exact List.mem_of_mem_filter hx
      rcases List.mem_cons.mp hx2 with h | h
      · subst h; exact List.mem_append_right _ (List.mem_singleton_self _)
      · exact List.mem_append_left _ (hsub x h)
    have hall2 : ((processed ++ [ts]) ++ tss).Nodup := by
      rw [List.append_assoc]
      exact hall
    have hrec := createBackup_fold_invariant tss (createBackup ts state) (processed ++ [ts])
      hnew_nd hnew_sub hall2 hstep
    rw [List.foldl_cons, hrec]
    refine congrArg (List.take MaxBackupsPerAddon) (listBackups_congr ?_)
    rw [List.append_assoc]
    exact List.Perm.refl _

/-- C3: with `MaxBackupsPerAddon = 3`, after any sequence of successful
`CreateBackup` calls at pairwise-distinct timestamps starting from an empty
backup directory, `ListBackups` returns at most 3 entries, and they are
exactly the most recent timestamps in lexicographic (= chronological)
order, newest first — the first 3 of the newest-first ordering of all
timestamps created; in particular after 5 backups exactly the 3 most
recent remain. -/
theorem backup_retention (tss : List String) (h : tss.Nodup) :
    listBackups (tss.foldl (fun s ts => createBackup ts s) []) =
      (listBackups tss).take 3 ∧
    (listBackups (tss.foldl (fun s ts => createBackup ts s) [])).length ≤ 3 := by
  have hmain := createBackup_fold_invariant tss [] [] List.nodup_nil (by simp)
    (by simpa using h) (by rfl)
  simp only [List.nil_append] at hmain
  refine ⟨hmain, ?_⟩
  rw [hmain]
  exact List.length_take_le _ _

/-- C3 witness: five distinct timestamps. -/
theorem backup_retention_witness :
    ["20250101-120000", "20250102-120000", "20250103-120000", "20250104-120000",
      "20250105-120000"].Nodup ∧
    (listBackups ((["20250101-120000", "20250102-120000", "20250103-120000",
        "20250104-120000", "20250105-120000"]).foldl (fun s ts => createBackup ts s) []) =
      (listBackups ["20250101-120000", "20250102-120000", "20250103-120000",
        "20250104-120000", "20250105-120000"]).take 3 ∧
    (listBackups ((["20250101-120000", "20250102-120000", "20250103-120000",
        "20250104-120000", "20250105-120000"]).foldl (fun s ts => createBackup ts s) [])).length ≤ 3) :=
  ⟨by decide, backup_retention _ (by decide)⟩

/-! ## C10: the savedvariables entry is one of the retained three -/

theorem strLt_trans {a b c : String} (h1 : strLt a b = true) (h2 : strLt b c = true) :
    strLt a c = true :=
  strLtb_trans h1 h2

theorem strLt_ne {a b : String} (h : strLt a b = true) : a ≠ b ∧ b ≠ a := by
  have hne : a ≠ b := by
    intro he
    rw [he, show strLt b b = false from strLtb_irrefl b.data] at h
    exact Bool.noConfusion h
  exact ⟨hne, fun he => hne he.symm⟩

theorem strLe_of_lt {a b : String} (h : strLt a b = true) : strLe a b = true := by
  unfold strLe strLt
  rw [strLtb_asymm h]
  rfl

theorem strLe_false_of_lt {a b : String} (h : strLt a b = true) : strLe b a = false := by
  unfold strLe strLt
  unfold strLt at h
  rw [h]
  rfl

/-- Letters sort after digits: a digit-initial timestamp is strictly below
`"savedvariables"`. -/
theorem digit_head_lt_savedvariables {t : String} (h : startsWithDigit t = true) :
    strLt t "savedvariables" = true := by
  unfold startsWithDigit at h
  unfold strLt
  rcases ht : t.data with _ | ⟨c, cs⟩
  · rw [ht] at h
    exact Bool.noConfusion h
  · rw [ht] at h
    have hc : c.toNat ≤ 57 := by
      unfold isDigitCh at h
      simp only [Bool.and_eq_true, decide_eq_true_eq] at h
      exact h.2
    rw [show "savedvariables".data = 's' :: "avedvariables".data from rfl]
    unfold strLtb
    rw [if_pos ?_]
    have hs : 's'.toNat = 115 := rfl
    omega

/-- C10: after `BackupSavedVariables` runs for an addon with at least one
matching SavedVariables file, `ListBackups` for that addon includes the
literal entry `savedvariables`, which (letters sorting after digits) sorts
before every digit-initial timestamped backup in the newest-first order;
it is counted toward the 3-entry retention limit, so a later `CreateBackup`
evicts genuine timestamped backups while only two of them remain. -/
theorem savedvariables_counted (wtf : List String) (addon t1 t2 t3 t4 : String)
    (hsv : savedVarFiles wtf addon ≠ [])
    (hd1 : startsWithDigit t1 = true) (hd2 : startsWithDigit t2 = true)
    (hd3 : startsWithDigit t3 = true) (hd4 : startsWithDigit t4 = true)
    (h12 : strLt t1 t2 = true) (h23 : strLt t2 t3 = true) (h34 : strLt t3 t4 = true) :
    listBackups (backupSavedVariables wtf addon [t1, t2, t3]) =
      ["savedvariables", t3, t2, t1] ∧
    listBackups (createBackup t4 (backupSavedVariables wtf addon [t1, t2, t3])) =
      ["savedvariables", t4, t3] := by
  have hsv1 := digit_head_lt_savedvariables hd1
  have hsv2 := digit_head_lt_savedvariables hd2
  have hsv3 := digit_head_lt_savedvariables hd3
  have hsv4 := digit_head_lt_savedvariables hd4
  have h13 := strLt_trans h12 h23
  have h24 := strLt_trans h23 h34
  have h14 := strLt_trans h13 h34
  have he1 : backupSavedVariables wtf addon [t1, t2, t3] =
      "savedvariables" :: [t1, t2, t3] := by
    unfold backupSavedVariables
    rw [if_neg hsv, if_neg ?_]
    intro hmem
    simp only [List.mem_cons, List.not_mem_nil, or_false] at hmem
    rcases hmem with h | h | h
    · exact (strLt_ne hsv1).2 h
    · exact (strLt_ne hsv2).2 h
    · exact (strLt_ne hsv3).2 h
  have hsorted4 : listBackups ["savedvariables", t1, t2, t3] =
      ["savedvariables", t3, t2, t1] := by
    simp [listBackups, List.insertionSort, List.orderedInsert,
      strLe_false_of_lt h12, strLe_false_of_lt h13, strLe_false_of_lt h23,
      strLe_of_lt h12, strLe_of_lt h23, strLe_of_lt h13,
      strLe_of_lt hsv1, strLe_of_lt hsv2, strLe_of_lt hsv3]
  refine ⟨by rw [he1]; exact hsorted4, ?_⟩
  rw [he1]
  unfold createBackup cleanupOldBackups
  have hlb5 : listBackups (t4 :: "savedvariables" :: [t1, t2, t3]) =
      ["savedvariables", t4, t3, t2, t1] := by
    simp [listBackups, List.insertionSort, List.orderedInsert,
      strLe_false_of_lt h12, strLe_false_of_lt h13, strLe_false_of_lt h23,
      strLe_false_of_lt h14, strLe_false_of_lt h24, strLe_false_of_lt h34,
      strLe_of_lt h12, strLe_of_lt h23, strLe_of_lt h13,
      strLe_of_lt h14, strLe_of_lt h24, strLe_of_lt h34,
      strLe_of_lt hsv1, strLe_of_lt hsv2, strLe_of_lt hsv3, strLe_of_lt hsv4,
      strLe_false_of_lt hsv4]
  rw [hlb5]
  rw [if_neg (by simp [MaxBackupsPerAddon])]
  have hfilter : (t4 :: "savedvariables" :: [t1, t2, t3]).filter
      (fun e => e ∉ (["savedvariables", t4, t3, t2, t1]).drop MaxBackupsPerAddon) =
      [t4, "savedvariables", t3] := by
    simp only [MaxBackupsPerAddon, List.drop, List.filter]
    simp [(strLt_ne h24).1, (strLt_ne h24).2, (strLt_ne h14).1, (strLt_ne h14).2,
      (strLt_ne hsv2).1, (strLt_ne hsv2).2, (strLt_ne hsv1).1, (strLt_ne hsv1).2,
      (strLt_ne h23).1, (strLt_ne h23).2, (strLt_ne h13).1, (strLt_ne h13).2,
      (strLt_ne h12).1, (strLt_ne h12).2]
  rw [hfilter]
  simp [listBackups, List.insertionSort, List.orderedInsert,
    strLe_of_lt hsv3, strLe_of_lt hsv4, strLe_false_of_lt hsv4, strLe_of_lt h34]

/-- C10 witness: concrete timestamps around a `savedvariables` backup. -/
theorem savedvariables_counted_witness :
    savedVarFiles ["FooStats.lua"] "Foo" ≠ [] ∧
    startsWithDigit "20250101-120000" = true ∧
    startsWithDigit "20250102-120000" = true ∧
    startsWithDigit "20250103-120000" = true ∧
    startsWithDigit "20250104-120000" = true ∧
    strLt "20250101-120000" "20250102-120000" = true ∧
    strLt "20250102-120000" "20250103-120000" = true ∧
    strLt "20250103-120000" "20250104-120000" = true ∧
    (listBackups (backupSavedVariables ["FooStats.lua"] "Foo"
        ["20250101-120000", "20250102-120000", "20250103-120000"]) =
      ["savedvariables", "20250103-120000", "20250102-120000", "20250101-120000"] ∧
    listBackups (createBackup "20250104-120000" (backupSavedVariables ["FooStats.lua"] "Foo"
        ["20250101-120000", "20250102-120000", "20250103-120000"])) =
      ["savedvariables", "20250104-120000", "20250103-120000"]) :=
  ⟨by decide, by decide, by decide, by decide, by decide, by decide, by decide, by decide,
   savedvariables_counted ["FooStats.lua"] "Foo" _ _ _ _ (by decide) (by decide) (by decide)
     (by decide) (by decide) (by decide) (by decide) (by decide)⟩

/-! ## Closed form of the repair scan -/

theorem repairStep_closed (snapshot : Store) (now : Time) (r : RepairResult) (st : Store)
    (d : AddonDirState) :
    repairStep snapshot now (r, st) d =
      ({ r with
          untrackedAddons := r.untrackedAddons ++
            (if untrackedCond snapshot d then [d.name] else []),
          corruptedRepos := r.corruptedRepos ++
            (if corruptedCond d then [d.name] else []),
          nameMismatches := r.nameMismatches ++
            (if mismatchCond d then [mismatchEntry d.name (tocNameOf d)] else []),
          issuesFound := r.issuesFound + issueCount snapshot d },
       autoStep snapshot now st d) := by
  by_cases hdef : isDefaultAddon d.name
  · have hu : untrackedCond snapshot d = false := by simp [untrackedCond, hdef]
    have hc : corruptedCond d = false := by simp [corruptedCond, hdef]
    have hm : mismatchCond d = false := by simp [mismatchCond, hdef]
    unfold repairStep issueCount autoStep
    simp [hdef, hu, hc, hm]
  · by_cases hlook : (storeLookup snapshot d.name).isNone
    · have hu : untrackedCond snapshot d = true := by simp [untrackedCond, hdef, hlook]
      rcases htoc : findTOCFile d.content with _ | ⟨base, tocName⟩
      · have hm : mismatchCond d = false := by simp [mismatchCond, hdef, htoc]
        rcases hurl : getRepoRemoteURL d with u | e <;>
          by_cases hgit : (isGitRepo d && !verifyRepoIntegrity d) = true <;>
            (have hc : corruptedCond d = (isGitRepo d && !verifyRepoIntegrity d) := by
              simp [corruptedCond, hdef]) <;>
            (unfold repairStep issueCount autoStep) <;>
              simp [hdef, hlook, hu, hm, htoc, hurl, hc, hgit] <;> omega
      · by_cases hne : tocName = d.name <;>
          [(have hm : mismatchCond d = false := by simp [mismatchCond, hdef, htoc, hne]);
           (have hm : mismatchCond d = true := by simp [mismatchCond, hdef, htoc, hne])] <;>
          (have htn : tocNameOf d = tocName := by simp [tocNameOf, htoc]) <;>
          rcases hurl : getRepoRemoteURL d with u | e <;>
          by_cases hgit : (isGitRepo d && !verifyRepoIntegrity d) = true <;>
            (have hc : corruptedCond d = (isGitRepo d && !verifyRepoIntegrity d) := by
              simp [corruptedCond, hdef]) <;>
            (unfold repairStep issueCount autoStep) <;>
              simp [hdef, hlook, hu, hm, htn, htoc, hurl, hc, hgit, hne] <;> omega
    · have hu : untrackedCond snapshot d = false := by simp [untrackedCond, hdef, hlook]
      rcases htoc : findTOCFile d.content with _ | ⟨base, tocName⟩
      · have hm : mismatchCond d = false := by simp [mismatchCond, hdef, htoc]
        by_cases hgit : (isGitRepo d && !verifyRepoIntegrity d) = true <;>
          (have hc : corruptedCond d = (isGitRepo d && !verifyRepoIntegrity d) := by
            simp [corruptedCond, hdef]) <;>
          (unfold repairStep issueCount autoStep) <;>
            simp [hdef, hlook, hu, hm, htoc, hc, hgit] <;> omega
      · by_cases hne : tocName = d.name <;>
          [(have hm : mismatchCond d = false := by simp [mismatchCond, hdef, htoc, hne]);
           (have hm : mismatchCond d = true := by simp [mismatchCond, hdef, htoc, hne])] <;>
          (have htn : tocNameOf d = tocName := by simp [tocNameOf, htoc]) <;>
          by_cases hgit : (isGitRepo d && !verifyRepoIntegrity d) = true <;>
            (have hc : corruptedCond d = (isGitRepo d && !verifyRepoIntegrity d) := by
              simp [corruptedCond, hdef]) <;>
            (unfold repairStep issueCount autoStep) <;>
              simp [hdef, hlook, hu, hm, htn, htoc, hc, hgit, hne] <;> omega

theorem repairFold_closed (snapshot : Store) (now : Time) :
    ∀ (ds : List AddonDirState) (r : RepairResult) (st : Store),
      ds.foldl (repairStep snapshot now) (r, st) =
        ({ r with
            untrackedAddons := r.untrackedAddons ++
              (ds.filter (untrackedCond snapshot)).map AddonDirState.name,
            corruptedRepos := r.corruptedRepos ++
              (ds.filter corruptedCond).map AddonDirState.name,
            nameMismatches := r.nameMismatches ++
              (ds.filter mismatchCond).map (fun d => mismatchEntry d.name (tocNameOf d)),
            issuesFound := r.issuesFound + (ds.map (issueCount snapshot)).sum },
         autoFold snapshot now st ds)
  | [], r, st => by
    simp [autoFold]
  | d :: ds, r, st => by
    rw [List.foldl_cons, repairStep_closed, repairFold_closed snapshot now ds]
    unfold autoFold
    rw [List.foldl_cons]
    refine Prod.ext ?_ rfl
    simp only [List.filter_cons, List.map_cons, List.sum_cons]
    by_cases hu : untrackedCond snapshot d = true <;>
      by_cases hc : corruptedCond d = true <;>
        by_cases hm : mismatchCond d = true <;>
          simp [hu, hc, hm, List.append_assoc] <;> omega

theorem repair_closed (now : Time) (store : Store) (dirs : List AddonDirState) :
    repair now store dirs =
      (⟨repairOrphans store dirs,
        ((nonHiddenDirs dirs).filter (untrackedCond store)).map AddonDirState.name,
        ((nonHiddenDirs dirs).filter corruptedCond).map AddonDirState.name,
        ((nonHiddenDirs dirs).filter mismatchCond).map
          (fun d => mismatchEntry d.name (tocNameOf d)),
        (nonHiddenDirs dirs).length,
        (repairOrphans store dirs).length +
          ((nonHiddenDirs dirs).map (issueCount store)).sum⟩,
       delFold (autoFold store now store (nonHiddenDirs dirs)) (repairOrphans store dirs)) := by
  unfold repair
  simp only [repairFold_closed]
  unfold repairOrphans delFold
  simp

/-! ## Association-list facts about the store -/

theorem storeLookup_eq_none_iff {s : Store} {k : String} :
    storeLookup s k = none ↔ k ∉ storeNames s := by
  induction s with
  | nil => simp [storeLookup, storeNames]
  | cons p t ih =>
    unfold storeLookup
    by_cases hp : p.1 = k
    · simp [hp, storeNames]
    · simp only [if_neg hp, storeNames, List.map_cons, List.mem_cons]
      rw [ih]
      unfold storeNames
      constructor
      · intro h hc
        rcases hc with hc | hc
        · exact hp hc.symm
        · exact h hc
      · intro h
        exact fun hc => h (Or.inr hc)

/-! ## C7: the default-addon exemption in Repair -/

/-- C7: a scanned non-hidden directory whose name is on the default-addon
allow-list, with no store entry and no manifest, produces zero issues from
`Repair`: it appears in none of the reported lists, every component of the
result except `TotalScanned` (and the repaired store itself) is as if the
directory were absent, and `TotalScanned` counts it. -/
theorem default_addon_exempt (now : Time) (store : Store)
    (l1 l2 : List AddonDirState) (e : AddonDirState)
    (hdef : isDefaultAddon e.name = true)
    (hvis : strStartsWith e.name "." = false)
    (hstore : storeLookup store e.name = none)
    (htoc : findTOCFile e.content = none) :
    (repair now store (l1 ++ e :: l2)).1.orphanedEntries =
      (repair now store (l1 ++ l2)).1.orphanedEntries ∧
    (repair now store (l1 ++ e :: l2)).1.untrackedAddons =
      (repair now store (l1 ++ l2)).1.untrackedAddons ∧
    (repair now store (l1 ++ e :: l2)).1.corruptedRepos =
      (repair now store (l1 ++ l2)).1.corruptedRepos ∧
    (repair now store (l1 ++ e :: l2)).1.nameMismatches =
      (repair now store (l1 ++ l2)).1.nameMismatches ∧
    (repair now store (l1 ++ e :: l2)).1.issuesFound =
      (repair now store (l1 ++ l2)).1.issuesFound ∧
    (repair now store (l1 ++ e :: l2)).1.totalScanned =
      (repair now store (l1 ++ l2)).1.totalScanned + 1 ∧
    (repair now store (l1 ++ e :: l2)).2 = (repair now store (l1 ++ l2)).2 ∧
    e.name ∉ (repair now store (l1 ++ e :: l2)).1.orphanedEntries ∧
    e.name ∉ (repair now store (l1 ++ e :: l2)).1.untrackedAddons ∧
    e.name ∉ (repair now store (l1 ++ e :: l2)).1.corruptedRepos := by
  have hue : untrackedCond store e = false := by simp [untrackedCond, hdef]
  have hce : corruptedCond e = false := by simp [corruptedCond, hdef]
  have hme : mismatchCond e = false := by simp [mismatchCond, hdef]
  have hic : issueCount store e = 0 := by simp [issueCount, hue, hce, hme]
  have hnh : nonHiddenDirs (l1 ++ e :: l2) =
      nonHiddenDirs l1 ++ e :: nonHiddenDirs l2 := by
    simp [nonHiddenDirs, List.filter_append, List.filter_cons, hvis]
  have hnh2 : nonHiddenDirs (l1 ++ l2) = nonHiddenDirs l1 ++ nonHiddenDirs l2 := by
    simp [nonHiddenDirs, List.filter_append]
  have hnames : e.name ∉ storeNames store := storeLookup_eq_none_iff.mp hstore
  have horph : repairOrphans store (l1 ++ e :: l2) = repairOrphans store (l1 ++ l2) := by
    unfold repairOrphans
    rw [hnh, hnh2]
    apply List.filter_congr
    intro n hn
    simp only [List.any_append, List.any_cons]
    have hne : (e.name = n) = False := by
      simp only [eq_iff_iff, iff_false]
      intro hc
      exact hnames (hc ▸ hn)
    simp [hne]
  have hauto : autoFold store now store (nonHiddenDirs l1 ++ e :: nonHiddenDirs l2) =
      autoFold store now store (nonHiddenDirs l1 ++ nonHiddenDirs l2) := by
    unfold autoFold
    rw [List.foldl_append, List.foldl_cons, List.foldl_append]
    have hid : ∀ st, autoStep store now st e = st := by
      intro st
      simp [autoStep, hue]
    rw [hid]
  rw [repair_closed, repair_closed]
  refine ⟨horph, ?_, ?_, ?_, ?_, ?_, ?_, ?_, ?_, ?_⟩
  · rw [hnh, hnh2]
    simp [List.filter_append, List.filter_cons, hue]
  · rw [hnh, hnh2]
    simp [List.filter_append, List.filter_cons, hce]
  · rw [hnh, hnh2]
    simp [List.filter_append, List.filter_cons, hme]
  · rw [hnh, hnh2, horph]
    simp only [List.filter_append, List.filter_cons, List.map_append, List.map_cons,
      List.sum_append, List.sum_cons, hic]
    omega
  · rw [hnh, hnh2]
    simp only [List.length_append, List.length_cons]
    omega
  · rw [hnh, hnh2, horph, hauto]
  · intro hmem
    dsimp only at hmem
    unfold repairOrphans at hmem
    exact hnames (List.mem_of_mem_filter hmem)
  · intro hmem
    dsimp only at hmem
    rw [List.mem_map] at hmem
    obtain ⟨d, hdmem, hdname⟩ := hmem
    have hcond := List.of_mem_filter hdmem
    unfold untrackedCond at hcond
    rw [hdname, hdef] at hcond
    simp at hcond
  · intro hmem
    dsimp only at hmem
    rw [List.mem_map] at hmem
    obtain ⟨d, hdmem, hdname⟩ := hmem
    have hcond := List.of_mem_filter hdmem
    unfold corruptedCond at hcond
    rw [hdname, hdef] at hcond
    simp at hcond

/-- C7 witness: a bundled default addon directory next to a tracked one. -/
theorem default_addon_exempt_witness :
    isDefaultAddon (⟨"Blizzard_RaidUI", [], none⟩ : AddonDirState).name = true ∧
    strStartsWith (⟨"Blizzard_RaidUI", [], none⟩ : AddonDirState).name "." = false ∧
    storeLookup [("Other", ⟨"https://r/o.git", demoTime, demoTime⟩)]
      (⟨"Blizzard_RaidUI", [], none⟩ : AddonDirState).name = none ∧
    findTOCFile (⟨"Blizzard_RaidUI", [], none⟩ : AddonDirState).content = none ∧
    (repair demoTime [("Other", ⟨"https://r/o.git", demoTime, demoTime⟩)]
        ([] ++ (⟨"Blizzard_RaidUI", [], none⟩ : AddonDirState) ::
          [⟨"Other", [], none⟩])).1.issuesFound =
      (repair demoTime [("Other", ⟨"https://r/o.git", demoTime, demoTime⟩)]
        ([] ++ [⟨"Other", [], none⟩])).1.issuesFound :=
  ⟨by decide, by decide, by decide, by decide,
   (default_addon_exempt demoTime [("Other", ⟨"https://r/o.git", demoTime, demoTime⟩)]
     [] [⟨"Other", [], none⟩] ⟨"Blizzard_RaidUI", [], none⟩
     (by decide) (by decide) (by decide) (by decide)).2.2.2.2.1⟩

/-! ## Lookup through the store mutations of a repair pass -/

theorem storeLookup_filter_ne {k k' : String} (h : k' ≠ k) : ∀ s : Store,
    storeLookup (s.filter (fun p => p.1 ≠ k)) k' = storeLookup s k'
  | [] => rfl
  | (a, v) :: t => by
    by_cases hp : a = k
    · rw [List.filter_cons_of_neg (by simp [hp])]
      rw [storeLookup_filter_ne h t]
      show storeLookup t k' = if a = k' then some v else storeLookup t k'
      rw [if_neg (show ¬ a = k' from fun hc => h (hc ▸ hp))]
    · rw [List.filter_cons_of_pos (by simp [hp])]
      show (if a = k' then some v else storeLookup (t.filter (fun p => p.1 ≠ k)) k') =
        if a = k' then some v else storeLookup t k'
      by_cases hk : a = k'
      · rw [if_pos hk, if_pos hk]
      · rw [if_neg hk, if_neg hk]
        exact storeLookup_filter_ne h t

theorem storeLookup_storeSet_self (s : Store) (k : String) (v : AddonMetadata) :
    storeLookup (storeSet s k v) k = some v := by
  show (if k = k then some v else _) = some v
  rw [if_pos rfl]

theorem storeLookup_storeSet_other {k k' : String} (h : k' ≠ k) (s : Store)
    (v : AddonMetadata) : storeLookup (storeSet s k v) k' = storeLookup s k' := by
  show (if k = k' then some v else storeLookup (s.filter (fun p => p.1 ≠ k)) k') =
    storeLookup s k'
  rw [if_neg (fun hc => h hc.symm)]
  exact storeLookup_filter_ne h s

theorem storeLookup_storeDelete_self (k : String) : ∀ s : Store,
    storeLookup (storeDelete s k) k = none
  | [] => rfl
  | (a, v) :: t => by
    unfold storeDelete
    by_cases hp : a = k
    · rw [List.filter_cons_of_neg (by simp [hp])]
      exact storeLookup_storeDelete_self k t
    · rw [List.filter_cons_of_pos (by simp [hp])]
      show (if a = k then some v else storeLookup (t.filter (fun p => p.1 ≠ k)) k) = none
      rw [if_neg hp]
      exact storeLookup_storeDelete_self k t

theorem storeLookup_storeDelete_other {k k' : String} (h : k' ≠ k) (s : Store) :
    storeLookup (storeDelete s k) k' = storeLookup s k' :=
  storeLookup_filter_ne h s

theorem storeLookup_delFold : ∀ (ns : List String) (st : Store) (k : String),
    storeLookup (delFold st ns) k = if k ∈ ns then none else storeLookup st k
  | [], st, k => by simp [delFold]
  | n :: ns, st, k => by
    unfold delFold
    rw [List.foldl_cons]
    have ih := storeLookup_delFold ns (storeDelete st n) k
    unfold delFold at ih
    rw [ih]
    by_cases hk : k = n
    · subst hk
      by_cases hmem : k ∈ ns
      · simp [hmem]
      · simp [hmem, storeLookup_storeDelete_self]
    · by_cases hmem : k ∈ ns
      · simp [hmem]
      · rw [if_neg hmem, if_neg (by simp [hk, hmem]), storeLookup_storeDelete_other hk]

theorem autoStep_lookup_other (snapshot : Store) (now : Time) (st : Store)
    {d : AddonDirState} {k : String} (h : d.name ≠ k) :
    storeLookup (autoStep snapshot now st d) k = storeLookup st k := by
  unfold autoStep
  by_cases hu : untrackedCond snapshot d = true
  · rw [if_pos hu]
    rcases hurl : getRepoRemoteURL d with u | e
    · rfl
    · exact storeLookup_storeSet_other (fun hc => h hc.symm) st _
  · rw [if_neg hu]

theorem storeLookup_autoFold_not_mem (snapshot : Store) (now : Time) :
    ∀ (ds : List AddonDirState) (st : Store) (k : String),
      (∀ d ∈ ds, d.name ≠ k) →
      storeLookup (autoFold snapshot now st ds) k = storeLookup st k
  | [], _, _, _ => rfl
  | d :: ds, st, k, h => by
    unfold autoFold
    rw [List.foldl_cons]
    have ih := storeLookup_autoFold_not_mem snapshot now ds (autoStep snapshot now st d) k
      (fun x hx => h x (List.mem_cons_of_mem _ hx))
    unfold autoFold at ih
    rw [ih]
    exact autoStep_lookup_other snapshot now st (h d (List.mem_cons_self _ _))

theorem storeLookup_autoFold_mem (snapshot : Store) (now : Time) :
    ∀ (ds : List AddonDirState) (st : Store) (d : AddonDirState),
      d ∈ ds → (ds.map AddonDirState.name).Nodup →
      storeLookup (autoFold snapshot now st ds) d.name =
        if autoCond snapshot d then some ⟨urlOf d, now, now⟩
        else storeLookup st d.name
  | [], _, _, hmem, _ => absurd hmem (List.not_mem_nil _)
  | x :: ds, st, d, hmem, hnd => by
    simp only [List.map_cons, List.nodup_cons] at hnd
    unfold autoFold
    rw [List.foldl_cons]
    rcases List.mem_cons.mp hmem with heq | hmem2
    · subst heq
      have hrest : ∀ y ∈ ds, y.name ≠ d.name := by
        intro y hy hc
        exact hnd.1 (hc ▸ List.mem_map_of_mem AddonDirState.name hy)
      have h1 := storeLookup_autoFold_not_mem snapshot now ds
        (autoStep snapshot now st d) d.name hrest
      unfold autoFold at h1
      rw [h1]
      unfold autoStep autoCond remoteOKb urlOf
      by_cases hu : untrackedCond snapshot d = true
      · rw [if_pos hu]
        rcases hurl : getRepoRemoteURL d with u | e
        · simp [hu, hurl]
        · simp [hu, hurl, storeLookup_storeSet_self]
      · rw [if_neg hu]
        simp [hu]
    · have hx : x.name ≠ d.name := by
        intro hc
        exact hnd.1 (hc ▸ List.mem_map_of_mem AddonDirState.name hmem2)
      have ih := storeLookup_autoFold_mem snapshot now ds (autoStep snapshot now st x) d
        hmem2 hnd.2
      unfold autoFold at ih
      rw [ih]
      by_cases hc : autoCond snapshot d = true
      · rw [if_pos hc, if_pos hc]
      · rw [if_neg hc, if_neg hc]
        exact autoStep_lookup_other snapshot now st hx

theorem autoFold_id (snapshot : Store) (now : Time) :
    ∀ (ds : List AddonDirState) (st : Store),
      (∀ d ∈ ds, untrackedCond snapshot d = true → remoteOKb d = false) →
      autoFold snapshot now st ds = st
  | [], _, _ => rfl
  | d :: ds, st, h => by
    unfold autoFold
    rw [List.foldl_cons]
    have hstep : autoStep snapshot now st d = st := by
      unfold autoStep
      by_cases hu : untrackedCond snapshot d = true
      · rw [if_pos hu]
        have hr := h d (List.mem_cons_self _ _) hu
        unfold remoteOKb at hr
        rcases hurl : getRepoRemoteURL d with u | e
        · rfl
        · rw [hurl] at hr
          exact absurd hr (by simp)
      · rw [if_neg hu]
    rw [hstep]
    exact autoFold_id snapshot now ds st (fun x hx => h x (List.mem_cons_of_mem _ hx))

/-! ## C2: what a second Repair pass reports -/

theorem issueCount_sum (st : Store) : ∀ ds : List AddonDirState,
    (ds.map (issueCount st)).sum =
      (ds.filter (untrackedCond st)).length + (ds.filter corruptedCond).length +
        (ds.filter mismatchCond).length
  | [] => rfl
  | d :: ds => by
    simp only [List.map_cons, List.sum_cons, List.filter_cons]
    rw [issueCount_sum st ds]
    unfold issueCount
    by_cases hu : untrackedCond st d = true <;>
      by_cases hc : corruptedCond d = true <;>
        by_cases hm : mismatchCond d = true <;>
          simp [hu, hc, hm] <;> omega

theorem storeLookup_repair_folder (now : Time) (store : Store) (dirs : List AddonDirState)
    (hnd : ((nonHiddenDirs dirs).map AddonDirState.name).Nodup)
    {d : AddonDirState} (hmem : d ∈ nonHiddenDirs dirs) :
    storeLookup (repair now store dirs).2 d.name =
      if autoCond store d then some ⟨urlOf d, now, now⟩
      else storeLookup store d.name := by
  rw [repair_closed]
  show storeLookup (delFold (autoFold store now store (nonHiddenDirs dirs))
    (repairOrphans store dirs)) d.name = _
  rw [storeLookup_delFold]
  have hno : d.name ∉ repairOrphans store dirs := by
    intro hc
    unfold repairOrphans at hc
    have h2 := List.of_mem_filter hc
    simp at h2
    exact h2 d hmem rfl
  rw [if_neg hno]
  exact storeLookup_autoFold_mem store now (nonHiddenDirs dirs) store d hmem hnd

theorem untrackedCond_repair (now : Time) (store : Store) (dirs : List AddonDirState)
    (hnd : ((nonHiddenDirs dirs).map AddonDirState.name).Nodup)
    {d : AddonDirState} (hmem : d ∈ nonHiddenDirs dirs) :
    untrackedCond (repair now store dirs).2 d =
      (untrackedCond store d && !remoteOKb d) := by
  have hl := storeLookup_repair_folder now store dirs hnd hmem
  unfold untrackedCond
  rw [hl]
  by_cases ha : autoCond store d = true
  · rw [if_pos ha]
    have ha2 := ha
    unfold autoCond at ha2
    simp only [Bool.and_eq_true] at ha2
    obtain ⟨hu, hr⟩ := ha2
    unfold untrackedCond at hu
    simp only [Bool.and_eq_true] at hu
    obtain ⟨hd, hn⟩ := hu
    simp [hd, hn, hr]
  · rw [if_neg ha]
    by_cases hu : untrackedCond store d = true
    · have hr : remoteOKb d = false := by
        by_contra hcon
        rw [Bool.not_eq_false] at hcon
        exact ha (by unfold autoCond; rw [hu, hcon]; rfl)
      unfold untrackedCond at hu
      simp [hu, hr]
    · rw [Bool.not_eq_true] at hu
      unfold untrackedCond at hu
      simp [hu]

theorem repairOrphans_repair (now : Time) (store : Store) (dirs : List AddonDirState) :
    repairOrphans (repair now store dirs).2 dirs = [] := by
  rw [repair_closed]
  unfold repairOrphans
  rw [List.filter_eq_nil]
  intro n hn h
  have hno : ∀ d ∈ nonHiddenDirs dirs, d.name ≠ n := by
    simpa using h
  have hlook : storeLookup (delFold (autoFold store now store (nonHiddenDirs dirs))
      (repairOrphans store dirs)) n = none := by
    rw [storeLookup_delFold]
    by_cases hm : n ∈ repairOrphans store dirs
    · rw [if_pos hm]
    · rw [if_neg hm]
      rw [storeLookup_autoFold_not_mem store now (nonHiddenDirs dirs) store n hno]
      rcases hs : storeLookup store n with _ | v
      · rfl
      · exfalso
        apply hm
        unfold repairOrphans
        refine List.mem_filter.mpr ⟨?_, h⟩
        by_contra hns
        rw [← storeLookup_eq_none_iff] at hns
        rw [hs] at hns
        exact Option.noConfusion hns
  exact (storeLookup_eq_none_iff.mp hlook) hn

/-- C2: the claim fails as stated — a second `Repair` pass is not clean.
Amended: with distinct folder names, the second pass reports no orphaned
entries and leaves the store unchanged, but it re-reports every corrupted
repository, every manifest/folder name mismatch, and every untracked folder
whose git remote does not resolve (only untracked folders WITH a resolvable
remote were auto-tracked by the first pass), so its `IssuesFound` is the
count of those unfixed findings, not `0`. -/
theorem repair_second_pass (now now2 : Time) (store : Store) (dirs : List AddonDirState)
    (hnd : ((nonHiddenDirs dirs).map AddonDirState.name).Nodup) :
    repair now2 (repair now store dirs).2 dirs =
      (⟨[],
        ((nonHiddenDirs dirs).filter
          (fun d => untrackedCond store d && !remoteOKb d)).map AddonDirState.name,
        ((nonHiddenDirs dirs).filter corruptedCond).map AddonDirState.name,
        ((nonHiddenDirs dirs).filter mismatchCond).map
          (fun d => mismatchEntry d.name (tocNameOf d)),
        (nonHiddenDirs dirs).length,
        ((nonHiddenDirs dirs).filter
          (fun d => untrackedCond store d && !remoteOKb d)).length +
          ((nonHiddenDirs dirs).filter corruptedCond).length +
          ((nonHiddenDirs dirs).filter mismatchCond).length⟩,
       (repair now store dirs).2) := by
  have hcongr : ∀ d ∈ nonHiddenDirs dirs,
      untrackedCond (repair now store dirs).2 d =
        (untrackedCond store d && !remoteOKb d) :=
    fun d hd => untrackedCond_repair now store dirs hnd hd
  rw [repair_closed now2]
  rw [repairOrphans_repair, issueCount_sum, List.filter_congr hcongr]
  refine Prod.ext ?_ ?_
  · simp
  · show delFold (autoFold (repair now store dirs).2 now2 (repair now store dirs).2
      (nonHiddenDirs dirs)) [] = (repair now store dirs).2
    unfold delFold
    rw [List.foldl_nil]
    apply autoFold_id
    intro d hd hu
    rw [hcongr d hd] at hu
    obtain ⟨h1, h2⟩ : untrackedCond store d = true ∧ remoteOKb d = false := by
      simpa using hu
    exact h2

/-- C2 counterexample: one visible folder `Foo` that is untracked, has no
git repository (so no remote URL resolves), over an empty store. The first
`Repair` reports it and cannot auto-track it; the second `Repair` still
finds `IssuesFound = 1`, not `0`. -/
theorem repair_not_idempotent :
    (repair demoTime (repair demoTime [] [untrackedDir]).2 [untrackedDir]).1.issuesFound
      = 1 := by
  decide

/-- C2 witness: the amended second-pass characterization evaluated on the
`Foo` scenario. -/
theorem repair_second_pass_witness :
    ((nonHiddenDirs [untrackedDir]).map AddonDirState.name).Nodup ∧
    repair demoTime (repair demoTime [] [untrackedDir]).2 [untrackedDir] =
      (⟨[], ["Foo"], [], [], 1, 1⟩, (repair demoTime [] [untrackedDir]).2) :=
  ⟨by decide, by
    rw [repair_second_pass demoTime demoTime [] [untrackedDir] (by decide)]
    decide⟩

/-! ## C6: the Install collision check -/

theorem findDir_isSome_of_mem {n : String} : ∀ {l : List AddonDirState},
    (∃ d ∈ l, d.name = n) → (findDir l n).isSome = true
  | [], h => by simp at h
  | x :: t, h => by
    unfold findDir
    by_cases hx : x.name = n
    · rw [if_pos hx]; rfl
    · rw [if_neg hx]
      rcases h with ⟨d, hd, hdn⟩
      rcases List.mem_cons.mp hd with heq | hm
      · exact absurd (heq ▸ hdn) hx
      · exact findDir_isSome_of_mem ⟨d, hm, hdn⟩

set_option maxHeartbeats 1600000 in
/-- After any successful `Install`, a directory named after the returned
addon name exists: the clone lands under the URL-derived name, and the
manifest-rename step renames exactly that directory to the returned
name. -/
theorem install_ok_dir_exists {w : World} {url : String} {res : InstallResult} {w1 : World}
    (h1 : managerInstall w url = (.ok res, w1)) : dirExists w1 res.name = true := by
  simp only [managerInstall] at h1
  split at h1
  · simp [Prod.ext_iff] at h1
  · split at h1
    · simp [Prod.ext_iff] at h1
    · split at h1
      · simp [Prod.ext_iff] at h1
      · split at h1
        · split at h1
          · rw [Prod.ext_iff] at h1
            obtain ⟨hres, hw⟩ := h1
            injection hres with hres
            subst hres
            subst hw
            unfold dirExists
            apply findDir_isSome_of_mem
            exact ⟨_, List.mem_append_right _ (List.mem_singleton_self _), rfl⟩
          · rw [Prod.ext_iff] at h1
            obtain ⟨hres, hw⟩ := h1
            injection hres with hres
            subst hres
            subst hw
            unfold dirExists
            apply findDir_isSome_of_mem
            refine ⟨_, List.mem_map_of_mem _
              (List.mem_append_right _ (List.mem_singleton_self _)), ?_⟩
            simp
        · rw [Prod.ext_iff] at h1
          obtain ⟨hres, hw⟩ := h1
          injection hres with hres
          subst hres
          subst hw
          unfold dirExists
          apply findDir_isSome_of_mem
          exact ⟨_, List.mem_append_right _ (List.mem_singleton_self _), rfl⟩

/-- C6: the claim fails as stated — two `Install` calls whose URLs derive
the same folder name need not collide, because the collision check runs
against the URL-derived name while the installed directory may have been
renamed to its manifest name.  Amended: when the first `Install` succeeds,
any second `Install` with a valid URL whose derived folder name equals the
name the first call actually RETURNED fails with `AddonExists` and leaves
the world (directories, store, backups) exactly as the first call left
it. -/
theorem install_collision (w : World) (url url2 : String)
    (res : InstallResult) (w1 : World)
    (h1 : managerInstall w url = (.ok res, w1))
    (hval : validateGitURL url2 = true)
    (hsame : extractRepoName (normalizeGitURL url2) = res.name) :
    managerInstall w1 url2 = (.error (.addonExists res.name), w1) := by
  have hexists : dirExists w1 res.name = true := install_ok_dir_exists h1
  simp only [managerInstall, hval, hsame, hexists, Bool.not_true, if_false, if_true]
  rfl

/-- C6 witness: installing the same URL twice when the manifest name equals
the derived folder name collides on the second call. -/
theorem install_collision_witness :
    managerInstall (managerInstall plainWorld "https://e/u/MyAddon.git").2
        "https://e/u/MyAddon.git" =
      (.error (.addonExists "MyAddon"),
       (managerInstall plainWorld "https://e/u/MyAddon.git").2) :=
  install_collision plainWorld "https://e/u/MyAddon.git" "https://e/u/MyAddon.git"
    ⟨"MyAddon", "My Addon", "MyAddon"⟩
    (managerInstall plainWorld "https://e/u/MyAddon.git").2
    rfl (by decide) (by decide)

/-- C6 counterexample: the repository at the URL carries a manifest named
`pfQuest.toc`, so the first `Install` of `QuestTracker.git` lands as
`pfQuest`; a second `Install` of the very same URL re-clones and SUCCEEDS
as `QuestTracker` instead of failing with `AddonExists`. -/
theorem install_rename_no_collision :
    (managerInstall (managerInstall renameWorld "https://e/u/QuestTracker.git").2
        "https://e/u/QuestTracker.git").1 =
      Except.ok ⟨"QuestTracker", "PF", "QuestTracker"⟩ := by
  decide

/-! ## C8: the ListInstalled sort order -/

theorem addonLe_total (a b : Addon) : addonLe a b = true ∨ addonLe b a = true := by
  unfold addonLe
  rcases Nat.lt_trichotomy (getPriority a) (getPriority b) with h | h | h
  · left; simp [h]
  · rcases strLe_total (strToLower a.name) (strToLower b.name) with hs | hs
    · left; simp [h, hs]
    · right; simp [h, hs]
  · right; simp [h]

theorem addonLe_trans (a b c : Addon) (h1 : addonLe a b = true) (h2 : addonLe b c = true) :
    addonLe a c = true := by
  unfold addonLe at h1 h2 ⊢
  simp only [Bool.or_eq_true, Bool.and_eq_true, decide_eq_true_eq] at h1 h2 ⊢
  rcases h1 with h1 | ⟨h1, h1s⟩ <;> rcases h2 with h2 | ⟨h2, h2s⟩
  · left; omega
  · left; omega
  · left; omega
  · right; exact ⟨by omega, strLe_trans h1s h2s⟩

/-- C8: the claim fails as stated — `ListInstalled` does sort by priority
then case-insensitive name, but its priority test for `Tracked` is whether
the record's `GitURL` field is non-empty, and `GetInfo` fills that field
from the directory's git `origin` remote even when the Metadata Store has
no entry, so an untracked addon with a configured remote sorts as Tracked
(priority 1), not Untracked (priority 2) as the spec defines the terms.
Amended: the output is a permutation of the per-directory records of the
non-hidden directories, sorted by the code's key `addonLe` (priority
`Default = 0`, `GitURL ≠ "" = 1`, else `2`, then case-insensitive name
ascending). -/
theorem list_installed_sorted (w : World) :
    List.Pairwise (fun a b => addonLe a b = true) (listInstalled w) ∧
    List.Perm (listInstalled w) ((nonHiddenDirs w.dirs).map (listRecord w)) := by
  constructor
  · haveI : IsTotal Addon (fun a b => addonLe a b = true) := ⟨addonLe_total⟩
    haveI : IsTrans Addon (fun a b => addonLe a b = true) := ⟨addonLe_trans⟩
    exact List.sorted_insertionSort _ _
  · exact List.perm_insertionSort _ _

/-- C8 counterexample: `AAA` is untracked in the store but its repository
has an `origin` remote, `BBB` is store-tracked.  The spec's priorities
(Default = 0, store entry = 1, none = 2) along `ListInstalled`'s output
come out `[2, 1]` — not ascending, so the code does not sort by the spec's
key: the untracked `AAA` was promoted to Tracked by the remote-URL
fallback. -/
theorem list_priority_mismatch :
    ((listInstalled listDemoWorld).map
      (fun a => specPriority listDemoWorld.store a.name)) = [2, 1] := by
  decide

end Turtlectl
